import Mathlib

/-!
# Verification of the adifi pixel-processing core

A shallow embedding, in Lean 4, of the pixel-processing services of the
adifi photo editor, together with theorems settling the specification
claims about them.

Embedding conventions:
* `ImageData` buffers are `List ℕ` of RGBA bytes (row-major, 4 bytes per
  pixel); reads use `List.getD _ _ 0`, matching the JavaScript semantics
  that an out-of-range read of a typed array yields `undefined`, which
  coerces to `0` when stored into a `Uint8ClampedArray`.
* JavaScript `number` arithmetic is modelled by exact `ℚ` (and `ℝ` where
  `Math.sqrt` occurs); decimal literals such as `0.299` denote the exact
  rationals written in the source.
* `Math.round` is `jsRound` (floor of `x + 1/2`, i.e. round half toward
  positive infinity), and storing a number into a `Uint8ClampedArray`
  clamps to `[0, 255]` and rounds ties to even (`toUint8Clamp`).
-/

/-- JavaScript `Math.round`: rounds half toward positive infinity. -/
def jsRound (q : ℚ) : ℤ := ⌊q + 1/2⌋

/-- The `ToUint8Clamp` conversion applied when a number is stored into a
`Uint8ClampedArray`: clamp into `[0,255]`, then round, ties to even. -/
def toUint8Clamp (q : ℚ) : ℕ :=
  if q ≤ 0 then 0
  else if 255 ≤ q then 255
  else if q - ⌊q⌋ < 1/2 then ⌊q⌋.toNat
  else if 1/2 < q - ⌊q⌋ then ⌊q⌋.toNat + 1
  else if ⌊q⌋ % 2 = 0 then ⌊q⌋.toNat else ⌊q⌋.toNat + 1

/-- All `(y, x)` pixel coordinates of a `h × w` image in row-major order
(the iteration order of the nested `for` loops in the source). -/
def rowMajor (h w : ℕ) : List (ℕ × ℕ) :=
  (List.range h).flatMap (fun y => (List.range w).map (fun x => (y, x)))

/-- The interior `(y, x)` pixel coordinates: the loops
`for (let y = 1; y < height - 1; y++) for (let x = 1; x < width - 1; x++)`. -/
def interiorPixels (w h : ℕ) : List (ℕ × ℕ) :=
  (List.range' 1 (h - 2)).flatMap (fun y => (List.range' 1 (w - 2)).map (fun x => (y, x)))

/-- Apply a sequence of `(index, value)` writes to a byte buffer, in order.
A write past the end of the buffer is discarded, as when storing past the
end of a JavaScript typed array. -/
def applyWrites (ws : List (ℕ × ℕ)) (buf : List ℕ) : List ℕ :=
  ws.foldl (fun b iv => b.set iv.1 iv.2) buf

/-- The copy loop `for (let i = 0; i < data.length; i++) newData[i] = data[i]`. -/
def copyInto (src dst : List ℕ) : List ℕ :=
  applyWrites src.enum dst

/-! ## Histogram Analyzer (`src/services/imageAnalysis.ts`) -/

/-- One RGBA pixel. -/
structure Pixel where
  r : ℕ
  g : ℕ
  b : ℕ
  a : ℕ
deriving DecidableEq, Repr

/-- The pixels of a flat RGBA buffer, in the order visited by
`for (let i = 0; i < data.length; i += 4)`. -/
def pixelList (data : List ℕ) : List Pixel :=
  (List.range (data.length / 4)).map
    (fun p => ⟨data.getD (4*p) 0, data.getD (4*p+1) 0, data.getD (4*p+2) 0, data.getD (4*p+3) 0⟩)

/-- `Math.round(0.299 * r + 0.587 * g + 0.114 * b)`. -/
def pixelLuminance (px : Pixel) : ℤ :=
  jsRound (0.299 * px.r + 0.587 * px.g + 0.114 * px.b)

/-- `(max - min) / max`, `0` when `max === 0`. -/
def pixelSaturation (px : Pixel) : ℚ :=
  let maxc := max px.r (max px.g px.b)
  let minc := min px.r (min px.g px.b)
  if maxc = 0 then 0 else ((maxc : ℚ) - (minc : ℚ)) / (maxc : ℚ)

/-- Accumulator of the histogram-building loop of `analyzeImageHistogram`. -/
structure HistState where
  lumHist : List ℕ
  redHist : List ℕ
  greenHist : List ℕ
  blueHist : List ℕ
  totalLum : ℤ
  totalSat : ℚ

/-- Increment bin `i` of a histogram. -/
def bumpBin (hist : List ℕ) (i : ℕ) : List ℕ :=
  hist.set i (hist.getD i 0 + 1)

/-- One iteration of the histogram loop: skip the pixel when `alpha === 0`,
otherwise bin its luminance and channels and accumulate the totals. -/
def histStep (st : HistState) (px : Pixel) : HistState :=
  if px.a = 0 then st
  else
    let lum := pixelLuminance px
    { lumHist := bumpBin st.lumHist lum.toNat
      redHist := bumpBin st.redHist px.r
      greenHist := bumpBin st.greenHist px.g
      blueHist := bumpBin st.blueHist px.b
      totalLum := st.totalLum + lum
      totalSat := st.totalSat + pixelSaturation px }

/-- The initial `HistState`: four zeroed 256-bin histograms and zero totals. -/
def initHistState : HistState :=
  ⟨List.replicate 256 0, List.replicate 256 0, List.replicate 256 0, List.replicate 256 0, 0, 0⟩

/-- The bottom-up cumulative scan of `calculateContrastLevel`:
starting from cumulative count `cum`, return the offset of the first bin at
which the cumulative count exceeds `t` (`none` when the loop never breaks). -/
def firstOverAux (t cum : ℚ) : List ℕ → Option ℕ
  | [] => none
  | c :: rest => if t < cum + (c : ℚ) then some 0 else (firstOverAux t (cum + (c : ℚ)) rest).map (· + 1)

/-- `calculateContrastLevel`: find the lowest and highest significant bins
(cumulative count from each end exceeding 1% of the total) and return
`(maxSignificant - minSignificant) / 255`.  The top-down loop is the
bottom-up scan of the reversed histogram; the histogram passed in always
has 256 bins. -/
def calculateContrastLevel (lumHist : List ℕ) : ℚ :=
  let totalPixels := lumHist.sum
  let threshold : ℚ := (totalPixels : ℚ) * 0.01
  let minSignificant : ℕ := (firstOverAux threshold 0 lumHist).getD 0
  let maxSignificant : ℕ :=
    match firstOverAux threshold 0 lumHist.reverse with
    | some r => 255 - r
    | none => 255
  ((maxSignificant : ℚ) - (minSignificant : ℚ)) / 255

/-- `calculateBrightnessAdjustment`. -/
def calculateBrightnessAdjustment (averageLuminance : ℚ) : ℚ :=
  max (-80) (min 80 ((128 - averageLuminance) / 128 * 60))

/-- `calculateContrastAdjustment`. -/
def calculateContrastAdjustment (contrastLevel : ℚ) : ℚ :=
  let difference := 0.8 - contrastLevel
  if 0 < difference then min 50 (difference * 100)
  else max (-20) (difference * 50)

/-- `calculateSaturationAdjustment`. -/
def calculateSaturationAdjustment (averageSaturation : ℚ) : ℚ :=
  let difference := 0.4 - averageSaturation
  if 0 < difference then min 40 (difference * 150)
  else if 0.6 < averageSaturation then max (-20) (difference * 100)
  else 0

/-- Result of `analyzeImageHistogram`. -/
structure ImageAnalysisResult where
  averageLuminance : ℚ
  contrastLevel : ℚ
  saturationLevel : ℚ
  recommendedBrightness : ℚ
  recommendedContrast : ℚ
  recommendedSaturation : ℚ

/-- `analyzeImageHistogram`: build the histograms and totals over the
pixels (skipping `alpha === 0`), then divide the totals by
`pixelCount = width * height` and derive the recommendations. -/
def analyzeImageHistogram (data : List ℕ) (width height : ℕ) : ImageAnalysisResult :=
  let pixelCount : ℚ := ((width * height : ℕ) : ℚ)
  let st := (pixelList data).foldl histStep initHistState
  let averageLuminance := (st.totalLum : ℚ) / pixelCount
  let averageSaturation := st.totalSat / pixelCount
  { averageLuminance := averageLuminance
    contrastLevel := calculateContrastLevel st.lumHist
    saturationLevel := averageSaturation
    recommendedBrightness := calculateBrightnessAdjustment averageLuminance
    recommendedContrast := calculateContrastAdjustment (calculateContrastLevel st.lumHist)
    recommendedSaturation := calculateSaturationAdjustment averageSaturation }

/-- The pixels with `alpha ≠ 0` (claim-side notion: the pixels the spec says
participate in all statistics). -/
def opaquePixels (data : List ℕ) : List Pixel :=
  (pixelList data).filter (fun px => decide (px.a ≠ 0))

/-- Claim-side sum of rounded luminances over the pixels with `alpha ≠ 0`. -/
def specLumSum (data : List ℕ) : ℤ :=
  ((opaquePixels data).map pixelLuminance).sum

/-- Claim-side sum of saturations over the pixels with `alpha ≠ 0`. -/
def specSatSum (data : List ℕ) : ℚ :=
  ((opaquePixels data).map pixelSaturation).sum

/-! ## Mask-Driven Cropper (`src/services/autoCrop.ts`) -/

/-- `CropBounds`, with `ℚ` fields since the source keeps JavaScript
numbers in them (the fallback path stores a non-integral `cropSize`). -/
structure CropBounds where
  x : ℚ
  y : ℚ
  width : ℚ
  height : ℚ
deriving DecidableEq, Repr

/-- Accumulator of the scan loop in `findSubjectBounds`. -/
structure SubjState where
  minX : ℕ
  maxX : ℕ
  minY : ℕ
  maxY : ℕ
  count : ℕ
deriving DecidableEq, Repr

/-- One iteration of the `findSubjectBounds` scan: update the running
min/max coordinates when `segmentation.data[y * width + x] === 1`. -/
def subjStep (mask : List ℕ) (width : ℕ) (st : SubjState) (p : ℕ × ℕ) : SubjState :=
  if mask.getD (p.1 * width + p.2) 0 = 1 then
    ⟨min st.minX p.2, max st.maxX p.2, min st.minY p.1, max st.maxY p.1, st.count + 1⟩
  else st

/-- `findSubjectBounds`: tightest box covering the `label == 1` pixels,
`none` when there are no such pixels.  (With at least one subject pixel
`maxX ≥ minX` and `maxY ≥ minY`, so the `ℕ` subtractions below agree with
the source's integer arithmetic.) -/
def findSubjectBounds (mask : List ℕ) (width height : ℕ) : Option CropBounds :=
  let st := (rowMajor height width).foldl (subjStep mask width) ⟨width, 0, height, 0, 0⟩
  if st.count = 0 then none
  else some ⟨(st.minX : ℚ), (st.minY : ℚ),
             ((st.maxX - st.minX + 1 : ℕ) : ℚ), ((st.maxY - st.minY + 1 : ℕ) : ℚ)⟩

/-- The fallback of `findOptimalCropBounds` when no subject is detected:
a centered square of side `Math.min(width, height) * 0.8` (note: the side
is not rounded). -/
def fallbackBounds (width height : ℕ) : CropBounds :=
  let cropSize : ℚ := ((min width height : ℕ) : ℚ) * 0.8
  { x := (jsRound (((width : ℚ) - cropSize) / 2) : ℤ)
    y := (jsRound (((height : ℚ) - cropSize) / 2) : ℤ)
    width := cropSize
    height := cropSize }

/-- The minimum-crop-size enforcement step of `findOptimalCropBounds`. -/
def ensureMinSize (b : CropBounds) (minCropSize : ℚ) : CropBounds :=
  if b.width < minCropSize ∨ b.height < minCropSize then
    let scale := max (minCropSize / b.width) (minCropSize / b.height)
    let newWidth : ℚ := (jsRound (b.width * scale) : ℤ)
    let newHeight : ℚ := (jsRound (b.height * scale) : ℤ)
    { x := max 0 (b.x - (jsRound ((newWidth - b.width) / 2) : ℤ))
      y := max 0 (b.y - (jsRound ((newHeight - b.height) / 2) : ℤ))
      width := newWidth
      height := newHeight }
  else b

/-- `applyCropPadding`: pad by `Math.round(size * paddingPercentage)` on
each side, clamp the position at 0, then trim the width/height (without
shifting) when the padded box crosses the right/bottom edge. -/
def applyCropPadding (b : CropBounds) (imageWidth imageHeight : ℕ) (paddingPercentage : ℚ) :
    CropBounds :=
  let paddingX : ℚ := (jsRound (b.width * paddingPercentage) : ℤ)
  let paddingY : ℚ := (jsRound (b.height * paddingPercentage) : ℤ)
  let px : ℚ := max 0 (b.x - paddingX)
  let py : ℚ := max 0 (b.y - paddingY)
  let pw : ℚ := b.width + 2 * paddingX
  let ph : ℚ := b.height + 2 * paddingY
  { x := px
    y := py
    width := if (imageWidth : ℚ) < px + pw then (imageWidth : ℚ) - px else pw
    height := if (imageHeight : ℚ) < py + ph then (imageHeight : ℚ) - py else ph }

/-- The aspect-ratio normalization step of `findOptimalCropBounds`:
replace a box whose ratio is above 3 or below 0.33 by a centered square
of side `min(width, height)`. -/
def normalizeAspect (b : CropBounds) : CropBounds :=
  let aspectRatio := b.width / b.height
  if 3 < aspectRatio ∨ aspectRatio < 0.33 then
    let targetSize := min b.width b.height
    let centerX := b.x + b.width / 2
    let centerY := b.y + b.height / 2
    { x := max 0 ((jsRound (centerX - targetSize / 2) : ℤ) : ℚ)
      y := max 0 ((jsRound (centerY - targetSize / 2) : ℤ) : ℚ)
      width := targetSize
      height := targetSize }
  else b

/-- `findOptimalCropBounds`: subject bounds (or the center-crop fallback),
then minimum size, padding, and aspect-ratio normalization.  The source
returns `CropBounds | null` but the `null` case is unreachable — the
fallback always yields a box. -/
def findOptimalCropBounds (mask : List ℕ) (width height : ℕ)
    (paddingPercentage minCropSize : ℚ) : CropBounds :=
  let bounds :=
    match findSubjectBounds mask width height with
    | some b => b
    | none => fallbackBounds width height
  normalizeAspect (applyCropPadding (ensureMinSize bounds minCropSize) width height
    paddingPercentage)

/-- An integer crop rectangle, as consumed by `cropImageData`. -/
structure RectN where
  x : ℕ
  y : ℕ
  width : ℕ
  height : ℕ
deriving DecidableEq, Repr

/-- The four RGBA writes `cropImageData` performs for one target pixel
`(cropY, cropX)`; reads outside the source buffer yield 0 (JavaScript
`undefined` stored into a `Uint8ClampedArray`). -/
def cropPixelWrites (data : List ℕ) (originalWidth : ℕ) (r : RectN) (p : ℕ × ℕ) :
    List (ℕ × ℕ) :=
  let originalPixelIndex := ((r.y + p.1) * originalWidth + (r.x + p.2)) * 4
  let croppedPixelIndex := (p.1 * r.width + p.2) * 4
  [(croppedPixelIndex, data.getD originalPixelIndex 0),
   (croppedPixelIndex + 1, data.getD (originalPixelIndex + 1) 0),
   (croppedPixelIndex + 2, data.getD (originalPixelIndex + 2) 0),
   (croppedPixelIndex + 3, data.getD (originalPixelIndex + 3) 0)]

/-- `cropImageData`: row-by-row RGBA copy of the rectangle into a freshly
allocated `width * height * 4` buffer.  No bounds check of any kind is
performed against the source buffer. -/
def cropImageData (data : List ℕ) (originalWidth : ℕ) (r : RectN) : List ℕ :=
  applyWrites ((rowMajor r.height r.width).flatMap (cropPixelWrites data originalWidth r))
    (List.replicate (r.width * r.height * 4) 0)

/-- `q : ℚ` is an integer (the spec's `int`-typed rectangle fields). -/
def IsIntQ (q : ℚ) : Prop := ∃ n : ℤ, q = (n : ℚ)

/-- The four clamping inequalities of the spec's `Rectangle` invariant:
`x >= 0, y >= 0, x + width <= imageWidth, y + height <= imageHeight`. -/
def InBoundsRect (b : CropBounds) (W H : ℕ) : Prop :=
  0 ≤ b.x ∧ 0 ≤ b.y ∧ b.x + b.width ≤ (W : ℚ) ∧ b.y + b.height ≤ (H : ℚ)

/-- Facts that hold for every box entering the padding stage of
`findOptimalCropBounds` (whichever of the subject / fallback / min-size
paths produced it). -/
def PrePadGood (b : CropBounds) (W H : ℕ) : Prop :=
  IsIntQ b.x ∧ IsIntQ b.y ∧
  0 ≤ b.x ∧ b.x < (W : ℚ) ∧ 0 ≤ b.y ∧ b.y < (H : ℚ) ∧
  4/5 ≤ b.width ∧ 4/5 ≤ b.height ∧
  (b.width = b.height ∨ (IsIntQ b.width ∧ IsIntQ b.height))

/-- Facts that hold for every box leaving the padding stage. -/
def PostPadGood (b : CropBounds) (W H : ℕ) : Prop :=
  InBoundsRect b W H ∧ 0 < b.width ∧ 0 < b.height ∧
  (b.width = b.height ∨ IsIntQ (min b.width b.height))

/-! ## Convolution Sharpener (`unnamed/part_004`) -/

/-- The three sharpening methods of `sharpenImage` (an unrecognized method
string falls back to `unsharp` in the source). -/
inductive SharpMethod
  | unsharp
  | laplacian
  | edgeEnhance
deriving DecidableEq, Repr

open scoped Classical in
/-- `ToUint8Clamp` on a real number (the edge-enhancement path stores
values involving `Math.sqrt`). -/
noncomputable def toUint8ClampR (x : ℝ) : ℕ :=
  if x ≤ 0 then 0
  else if 255 ≤ x then 255
  else if x - ⌊x⌋ < 1/2 then ⌊x⌋.toNat
  else if 1/2 < x - ⌊x⌋ then ⌊x⌋.toNat + 1
  else if ⌊x⌋ % 2 = 0 then ⌊x⌋.toNat else ⌊x⌋.toNat + 1

/-- Read channel `c` of the pixel at kernel offset `(dy - 1, dx - 1)` from
interior pixel `(y, x)` (so `dy, dx` range over `0, 1, 2`). -/
def tap (original : List ℕ) (w y x c dy dx : ℕ) : ℚ :=
  ((original.getD (((y - 1 + dy) * w + (x - 1 + dx)) * 4 + c) 0 : ℕ) : ℚ)

/-- The 3×3 Gaussian blur `[1,2,1,2,4,2,1,2,1] / 16` at one interior pixel
and channel, as accumulated by `applyUnsharpMask`. -/
def gaussAt (original : List ℕ) (w y x c : ℕ) : ℚ :=
  (tap original w y x c 0 0 * 1 + tap original w y x c 0 1 * 2 + tap original w y x c 0 2 * 1 +
   tap original w y x c 1 0 * 2 + tap original w y x c 1 1 * 4 + tap original w y x c 1 2 * 2 +
   tap original w y x c 2 0 * 1 + tap original w y x c 2 1 * 2 + tap original w y x c 2 2 * 1)
    / 16

/-- The three RGB writes of the blur loop for one interior pixel (the blur
buffer's alpha entries are left at zero, as in the source). -/
def blurWrites (original : List ℕ) (w : ℕ) (p : ℕ × ℕ) : List (ℕ × ℕ) :=
  [((p.1 * w + p.2) * 4, toUint8Clamp (gaussAt original w p.1 p.2 0)),
   ((p.1 * w + p.2) * 4 + 1, toUint8Clamp (gaussAt original w p.1 p.2 1)),
   ((p.1 * w + p.2) * 4 + 2, toUint8Clamp (gaussAt original w p.1 p.2 2))]

/-- The `blurred` buffer built by the first loop of `applyUnsharpMask`
(allocated as `new Uint8ClampedArray(original.length)`). -/
def gaussianBlur (original : List ℕ) (w h : ℕ) : List ℕ :=
  applyWrites ((interiorPixels w h).flatMap (blurWrites original w))
    (List.replicate original.length 0)

/-- One output byte of the unsharp-mask pass:
`original + (original - blurred) * intensity`, clamped. -/
def unsharpValue (original blurred : List ℕ) (w : ℕ) (intensity : ℚ) (y x c : ℕ) : ℕ :=
  let index := (y * w + x) * 4 + c
  let originalValue : ℚ := ((original.getD index 0 : ℕ) : ℚ)
  let blurredValue : ℚ := ((blurred.getD index 0 : ℕ) : ℚ)
  let difference := originalValue - blurredValue
  let sharpened := originalValue + difference * intensity
  toUint8Clamp (max 0 (min 255 sharpened))

/-- The four writes every sharpening method performs at one interior pixel:
three RGB channels from the method's value function, then the alpha copied
from the original. -/
def sharpenPixelWrites (original : List ℕ) (w : ℕ) (f : ℕ → ℕ → ℕ → ℕ) (p : ℕ × ℕ) :
    List (ℕ × ℕ) :=
  [((p.1 * w + p.2) * 4, f p.1 p.2 0),
   ((p.1 * w + p.2) * 4 + 1, f p.1 p.2 1),
   ((p.1 * w + p.2) * 4 + 2, f p.1 p.2 2),
   ((p.1 * w + p.2) * 4 + 3, original.getD ((p.1 * w + p.2) * 4 + 3) 0)]

/-- `applyUnsharpMask`, writing into the (already copied) `result` buffer. -/
def applyUnsharpMask (original result : List ℕ) (w h : ℕ) (intensity : ℚ) : List ℕ :=
  let blurred := gaussianBlur original w h
  applyWrites ((interiorPixels w h).flatMap
    (sharpenPixelWrites original w (unsharpValue original blurred w intensity))) result

/-- One output byte of the Laplacian pass: kernel `[0,-1,0,-1,5,-1,0,-1,0]`,
`original + (kernelSum - original) * intensity * 0.3`, clamped. -/
def laplacianValue (original : List ℕ) (w : ℕ) (intensity : ℚ) (y x c : ℕ) : ℕ :=
  let kernelSum :=
    tap original w y x c 0 0 * 0 + tap original w y x c 0 1 * (-1) +
    tap original w y x c 0 2 * 0 +
    tap original w y x c 1 0 * (-1) + tap original w y x c 1 1 * 5 +
    tap original w y x c 1 2 * (-1) +
    tap original w y x c 2 0 * 0 + tap original w y x c 2 1 * (-1) +
    tap original w y x c 2 2 * 0
  let enhanced := tap original w y x c 1 1 + (kernelSum - tap original w y x c 1 1)
    * intensity * 0.3
  toUint8Clamp (max 0 (min 255 enhanced))

/-- `applyLaplacianSharpening`. -/
def applyLaplacianSharpening (original result : List ℕ) (w h : ℕ) (intensity : ℚ) : List ℕ :=
  applyWrites ((interiorPixels w h).flatMap
    (sharpenPixelWrites original w (laplacianValue original w intensity))) result

/-- One output byte of the edge-enhancement pass: Sobel gradients, edge
magnitude `sqrt(gx² + gy²)`, `original + edge * intensity * 0.2`, clamped. -/
noncomputable def edgeValue (original : List ℕ) (w : ℕ) (intensity : ℚ) (y x c : ℕ) : ℕ :=
  let gradientX :=
    tap original w y x c 0 0 * (-1) + tap original w y x c 0 1 * 0 +
    tap original w y x c 0 2 * 1 +
    tap original w y x c 1 0 * (-2) + tap original w y x c 1 1 * 0 +
    tap original w y x c 1 2 * 2 +
    tap original w y x c 2 0 * (-1) + tap original w y x c 2 1 * 0 +
    tap original w y x c 2 2 * 1
  let gradientY :=
    tap original w y x c 0 0 * (-1) + tap original w y x c 0 1 * (-2) +
    tap original w y x c 0 2 * (-1) +
    tap original w y x c 1 0 * 0 + tap original w y x c 1 1 * 0 +
    tap original w y x c 1 2 * 0 +
    tap original w y x c 2 0 * 1 + tap original w y x c 2 1 * 2 +
    tap original w y x c 2 2 * 1
  let edge : ℝ := Real.sqrt ((gradientX : ℝ) * (gradientX : ℝ) + (gradientY : ℝ) * (gradientY : ℝ))
  let enhanced : ℝ := ((tap original w y x c 1 1 : ℚ) : ℝ) + edge * ((intensity : ℚ) : ℝ) * 0.2
  toUint8ClampR (max 0 (min 255 enhanced))

/-- `applyEdgeEnhancement`. -/
noncomputable def applyEdgeEnhancement (original result : List ℕ) (w h : ℕ)
    (intensity : ℚ) : List ℕ :=
  applyWrites ((interiorPixels w h).flatMap
    (sharpenPixelWrites original w (edgeValue original w intensity))) result

/-- `sharpenImage`: allocate a `4 * width * height` output, copy the input
into it, then overwrite the interior with the selected method. -/
noncomputable def sharpenImage (data : List ℕ) (w h : ℕ) (intensity : ℚ)
    (method : SharpMethod) : List ℕ :=
  let newData := copyInto data (List.replicate (4 * w * h) 0)
  match method with
  | .unsharp => applyUnsharpMask data newData w h intensity
  | .laplacian => applyLaplacianSharpening data newData w h intensity
  | .edgeEnhance => applyEdgeEnhancement data newData w h intensity

/-- `analyzeImageSharpness`: accumulate Sobel gradient magnitudes over the
interior pixels with `alpha ≥ 128`, then `min(100, max(0, avg / 3))`.
Note: the source computes a `gray` grayscale value but never uses it — the
Sobel taps `data[((y+ky)*width+(x+kx)) * 4]` read the red channel only;
the embedding reads channel 0 accordingly. -/
noncomputable def analyzeImageSharpness (data : List ℕ) (width height : ℕ) : ℝ :=
  let st := (interiorPixels width height).foldl
    (fun (st : ℝ × ℕ) (p : ℕ × ℕ) =>
      if data.getD ((p.1 * width + p.2) * 4 + 3) 0 < 128 then st
      else
        let gx : ℚ :=
          (-1) * tap data width p.1 p.2 0 0 0 + 1 * tap data width p.1 p.2 0 0 2 +
          (-2) * tap data width p.1 p.2 0 1 0 + 2 * tap data width p.1 p.2 0 1 2 +
          (-1) * tap data width p.1 p.2 0 2 0 + 1 * tap data width p.1 p.2 0 2 2
        let gy : ℚ :=
          (-1) * tap data width p.1 p.2 0 0 0 + (-2) * tap data width p.1 p.2 0 0 1 +
          (-1) * tap data width p.1 p.2 0 0 2 +
          1 * tap data width p.1 p.2 0 2 0 + 2 * tap data width p.1 p.2 0 2 1 +
          1 * tap data width p.1 p.2 0 2 2
        (st.1 + Real.sqrt (((gx : ℝ)) * (gx : ℝ) + ((gy : ℝ)) * (gy : ℝ)), st.2 + 1))
    ((0 : ℝ), (0 : ℕ))
  min 100 (max 0 (st.1 / (st.2 : ℝ) / 3))

/-- Modelled from the spec: the sharpness scorer as the specification
describes it — "average Sobel gradient magnitude over grayscale-converted
interior pixels" — i.e. with the Sobel taps applied to the grayscale value
`0.299R + 0.587G + 0.114B` instead of the raw red channel.  Used to
exhibit the divergence of the code from the claim. -/
noncomputable def analyzeImageSharpnessGray (data : List ℕ) (width height : ℕ) : ℝ :=
  let grayAt := fun (y x : ℕ) (dy dx : ℕ) =>
    0.299 * tap data width y x 0 dy dx + 0.587 * tap data width y x 1 dy dx +
      0.114 * tap data width y x 2 dy dx
  let st := (interiorPixels width height).foldl
    (fun (st : ℝ × ℕ) (p : ℕ × ℕ) =>
      if data.getD ((p.1 * width + p.2) * 4 + 3) 0 < 128 then st
      else
        let gx : ℚ :=
          (-1) * grayAt p.1 p.2 0 0 + 1 * grayAt p.1 p.2 0 2 +
          (-2) * grayAt p.1 p.2 1 0 + 2 * grayAt p.1 p.2 1 2 +
          (-1) * grayAt p.1 p.2 2 0 + 1 * grayAt p.1 p.2 2 2
        let gy : ℚ :=
          (-1) * grayAt p.1 p.2 0 0 + (-2) * grayAt p.1 p.2 0 1 + (-1) * grayAt p.1 p.2 0 2 +
          1 * grayAt p.1 p.2 2 0 + 2 * grayAt p.1 p.2 2 1 + 1 * grayAt p.1 p.2 2 2
        (st.1 + Real.sqrt (((gx : ℝ)) * (gx : ℝ) + ((gy : ℝ)) * (gy : ℝ)), st.2 + 1))
    ((0 : ℝ), (0 : ℕ))
  min 100 (max 0 (st.1 / (st.2 : ℝ) / 3))

/-! ## Color Quantizer (`src/services/colorAnalysis.ts`) -/

/-- An RGB color; fields are JavaScript numbers (`ℚ`): samples carry byte
values, centroids carry `Math.round`ed means. -/
structure ColorRGB where
  r : ℚ
  g : ℚ
  b : ℚ
deriving DecidableEq, Repr

/-- `rgbToHsl`, returning `(h * 360, s * 100, l * 100)`.  The source's
`switch (max)` matches `case r`, then `case g`, then `case b`; since `max`
always equals one of the three, the final `else` arm is the `case b` arm. -/
def rgbToHsl (r g b : ℚ) : ℚ × ℚ × ℚ :=
  let r1 := r / 255
  let g1 := g / 255
  let b1 := b / 255
  let maxc := max r1 (max g1 b1)
  let minc := min r1 (min g1 b1)
  let l := (maxc + minc) / 2
  if maxc = minc then (0, 0, l * 100)
  else
    let d := maxc - minc
    let s := if 1/2 < l then d / (2 - maxc - minc) else d / (maxc + minc)
    let h :=
      if maxc = r1 then (g1 - b1) / d + (if g1 < b1 then 6 else 0)
      else if maxc = g1 then (b1 - r1) / d + 2
      else (r1 - g1) / d + 4
    (h / 6 * 360, s * 100, l * 100)

/-- `samplePixels`: stride through the buffer at
`max(1, floor(totalPixels / maxSamples))` pixels, skipping pixels with
`alpha < 128` and pixels whose HSL lightness is below 5 or above 95.
(For `maxSamples = 0` JavaScript's `totalPixels / 0 = Infinity` makes the
loop stop after index 0; the `ℕ`-division model visits every pixel
instead, so theorems about arbitrary `maxSamples` read the model.) -/
def samplePixels (data : List ℕ) (width height : ℕ) (maxSamples : ℕ) : List ColorRGB :=
  let totalPixels := width * height
  let samplingInterval := max 1 (totalPixels / maxSamples)
  let indices := List.range' 0
    ((data.length + samplingInterval * 4 - 1) / (samplingInterval * 4)) (samplingInterval * 4)
  indices.foldr (fun i acc =>
    if data.getD (i + 3) 0 < 128 then acc
    else
      let r := data.getD i 0
      let g := data.getD (i + 1) 0
      let b := data.getD (i + 2) 0
      if (rgbToHsl r g b).2.2 < 5 ∨ 95 < (rgbToHsl r g b).2.2 then acc
      else ⟨(r : ℚ), (g : ℚ), (b : ℚ)⟩ :: acc) []

/-- `colorDistance`: Euclidean RGB distance. -/
noncomputable def colorDistance (c1 c2 : ColorRGB) : ℝ :=
  Real.sqrt (((c1.r - c2.r : ℚ) : ℝ) * ((c1.r - c2.r : ℚ) : ℝ) +
    ((c1.g - c2.g : ℚ) : ℝ) * ((c1.g - c2.g : ℚ) : ℝ) +
    ((c1.b - c2.b : ℚ) : ℝ) * ((c1.b - c2.b : ℚ) : ℝ))

/-- The inner `minDistance` loop: `none` models the initial `Infinity`
(the centroid list is nonempty in every call of the algorithm, so the
result is `some` of the least distance). -/
noncomputable def minDistOpt (pixel : ColorRGB) (centroids : List ColorRGB) : Option ℝ :=
  centroids.foldl (fun m c =>
    match m with
    | none => some (colorDistance pixel c)
    | some d => some (min d (colorDistance pixel c))) none

open scoped Classical in
/-- The cumulative-probability selection loop of the K-means++ step: the
first index at which the cumulative distance reaches `randomValue`. -/
noncomputable def cumulPickAux (rv cum : ℝ) : List ℝ → Option ℕ
  | [] => none
  | d :: rest => if rv ≤ cum + d then some 0 else (cumulPickAux rv (cum + d) rest).map (· + 1)

open scoped Classical in
/-- `initializeCentroids` (K-means++), with the `Math.random()` stream
modelled as `rand : ℕ → ℚ` and a counter threaded through the draws. -/
noncomputable def initCentroids (rand : ℕ → ℚ) (ctr : ℕ) (pixels : List ColorRGB) (k : ℕ) :
    List ColorRGB × ℕ :=
  let first := pixels.getD (⌊rand ctr * pixels.length⌋).toNat ⟨0, 0, 0⟩
  (List.range (k - 1)).foldl (fun (st : List ColorRGB × ℕ) _ =>
    let distances := pixels.map (fun px =>
      match minDistOpt px st.1 with
      | some d => d * d
      | none => 0)
    let totalDistance := distances.sum
    let randomValue := (rand st.2 : ℝ) * totalDistance
    match cumulPickAux randomValue 0 distances with
    | some j => (st.1 ++ [pixels.getD j ⟨0, 0, 0⟩], st.2 + 1)
    | none => (st.1, st.2 + 1)) ([first], ctr + 1)

open scoped Classical in
/-- `assignPixelsToClusters`: nearest centroid by strict improvement, in
index order; `none` again models the initial `Infinity`. -/
noncomputable def assignPixelsToClusters (pixels centroids : List ColorRGB) : List ℕ :=
  pixels.map (fun px =>
    (centroids.enum.foldl (fun (st : Option ℝ × ℕ) ic =>
      match st.1 with
      | none => (some (colorDistance px ic.2), ic.1)
      | some m =>
        if colorDistance px ic.2 < m then (some (colorDistance px ic.2), ic.1) else st)
      (none, 0)).2)

/-- `updateCentroids`: rounded mean of each cluster, reseeding empty
clusters from a random sample. -/
def updateCentroids (rand : ℕ → ℚ) (pixels : List ColorRGB) (assignments : List ℕ)
    (k : ℕ) (ctr : ℕ) : List ColorRGB × ℕ :=
  (List.range k).foldl (fun (st : List ColorRGB × ℕ) i =>
    let clusterPixels := ((pixels.zip assignments).filter (fun pa => pa.2 == i)).map Prod.fst
    if clusterPixels.length = 0 then
      (st.1 ++ [pixels.getD (⌊rand st.2 * pixels.length⌋).toNat ⟨0, 0, 0⟩], st.2 + 1)
    else
      (st.1 ++ [⟨((jsRound ((clusterPixels.map ColorRGB.r).sum / clusterPixels.length) : ℤ) : ℚ),
                 ((jsRound ((clusterPixels.map ColorRGB.g).sum / clusterPixels.length) : ℤ) : ℚ),
                 ((jsRound ((clusterPixels.map ColorRGB.b).sum / clusterPixels.length) : ℤ) : ℚ)⟩],
       st.2)) ([], ctr)

/-- `centroidsConverged` with the default threshold 1: no centroid moved
by more than distance 1. -/
def centroidsConverged (oldC newC : List ColorRGB) : Prop :=
  ∀ i < oldC.length,
    ¬ (1 < colorDistance (oldC.getD i ⟨0, 0, 0⟩) (newC.getD i ⟨0, 0, 0⟩))

open scoped Classical in
/-- The K-means iteration loop of `extractColorPalette`, with
`maxIterations` as fuel and early exit on convergence. -/
noncomputable def kmeansLoop (rand : ℕ → ℚ) (pixels : List ColorRGB) (k : ℕ) :
    ℕ → List ColorRGB → ℕ → List ColorRGB
  | 0, centroids, _ => centroids
  | fuel + 1, centroids, ctr =>
    let assignments := assignPixelsToClusters pixels centroids
    let upd := updateCentroids rand pixels assignments k ctr
    if centroidsConverged centroids upd.1 then upd.1
    else kmeansLoop rand pixels k fuel upd.1 upd.2

/-- The vibrancy score `saturation * (1 - |lightness - 50| / 50)`. -/
def vibrancy (c : ColorRGB) : ℚ :=
  (rgbToHsl c.r c.g c.b).2.1 * (1 - |(rgbToHsl c.r c.g c.b).2.2 - 50| / 50)

/-- `sortColorsByVibrancy`: stable sort, descending by vibrancy. -/
def sortColorsByVibrancy (colors : List ColorRGB) : List ColorRGB :=
  colors.mergeSort (fun a b => decide (vibrancy b ≤ vibrancy a))

/-- `extractColorPalette`: sample, fail hard with the
"Not enough valid pixels (n) for k clusters" error when the working set is
smaller than `k` (the error payload models the `(n, k)` of the message),
otherwise run K-means++ initialization, the iteration loop, and the
vibrancy sort. -/
noncomputable def extractColorPalette (rand : ℕ → ℚ) (data : List ℕ) (width height : ℕ)
    (k maxIterations maxSamples : ℕ) : Except (ℕ × ℕ) (List ColorRGB) :=
  let pixels := samplePixels data width height maxSamples
  if pixels.length < k then
    Except.error (pixels.length, k)
  else
    let init := initCentroids rand 0 pixels k
    Except.ok (sortColorsByVibrancy (kmeansLoop rand pixels k maxIterations init.1 init.2))

/-- A 3×3 image whose left and middle columns are black and whose right
column is pure green, all pixels opaque.  Its red channel is identically
zero while its grayscale values jump at the right column — the input that
separates the red-channel Sobel actually computed by
`analyzeImageSharpness` from the grayscale Sobel the spec describes. -/
def greenEdgeImage : List ℕ :=
  [0, 0, 0, 255, 0, 0, 0, 255, 0, 255, 0, 255,
   0, 0, 0, 255, 0, 0, 0, 255, 0, 255, 0, 255,
   0, 0, 0, 255, 0, 0, 0, 255, 0, 255, 0, 255]

-- ===== THEOREMS =====

/-! ## Fold lemmas for the histogram loop -/

lemma analyzeImageHistogram_averageLuminance_def (data : List ℕ) (width height : ℕ) :
    (analyzeImageHistogram data width height).averageLuminance =
      (((pixelList data).foldl histStep initHistState).totalLum : ℚ) /
        ((width * height : ℕ) : ℚ) := rfl

lemma analyzeImageHistogram_saturationLevel_def (data : List ℕ) (width height : ℕ) :
    (analyzeImageHistogram data width height).saturationLevel =
      ((pixelList data).foldl histStep initHistState).totalSat /
        ((width * height : ℕ) : ℚ) := rfl

lemma analyzeImageHistogram_contrastLevel_def (data : List ℕ) (width height : ℕ) :
    (analyzeImageHistogram data width height).contrastLevel =
      calculateContrastLevel ((pixelList data).foldl histStep initHistState).lumHist := rfl

lemma histStep_lumHist_length (st : HistState) (px : Pixel) :
    (histStep st px).lumHist.length = st.lumHist.length := by
  unfold histStep bumpBin
  split <;> simp

lemma foldl_histStep_lumHist_length (l : List Pixel) (st : HistState) :
    (l.foldl histStep st).lumHist.length = st.lumHist.length := by
  induction l generalizing st with
  | nil => rfl
  | cons px rest ih => rw [List.foldl_cons, ih, histStep_lumHist_length]

lemma foldl_histStep_totalLum (l : List Pixel) (st : HistState) :
    (l.foldl histStep st).totalLum =
      st.totalLum + ((l.filter (fun px => decide (px.a ≠ 0))).map pixelLuminance).sum := by
  induction l generalizing st with
  | nil => simp
  | cons px rest ih =>
    rw [List.foldl_cons, ih]
    by_cases h : px.a = 0
    · simp [histStep, h]
    · simp only [histStep, h, if_false, List.filter_cons]
      simp [h, add_assoc]

lemma foldl_histStep_totalSat (l : List Pixel) (st : HistState) :
    (l.foldl histStep st).totalSat =
      st.totalSat + ((l.filter (fun px => decide (px.a ≠ 0))).map pixelSaturation).sum := by
  induction l generalizing st with
  | nil => simp
  | cons px rest ih =>
    rw [List.foldl_cons, ih]
    by_cases h : px.a = 0
    · simp [histStep, h]
    · simp only [histStep, h, if_false, List.filter_cons]
      simp [h, add_assoc]

/-- **C1** (amended). The Histogram Analyzer excludes `alpha == 0` pixels
from the accumulated totals, but divides both totals by the full pixel
count `width * height`, not by the number of opaque pixels:
`averageLuminance` is the sum of rounded luminances over pixels with
`alpha ≠ 0` divided by `width * height`, and `saturationLevel` is the sum
of `(max-min)/max` saturations over the same pixels divided by
`width * height`. -/
theorem analyzeImageHistogram_averages (data : List ℕ) (width height : ℕ) :
    (analyzeImageHistogram data width height).averageLuminance =
      ((specLumSum data : ℚ)) / ((width * height : ℕ) : ℚ) ∧
    (analyzeImageHistogram data width height).saturationLevel =
      specSatSum data / ((width * height : ℕ) : ℚ) := by
  constructor
  · rw [analyzeImageHistogram_averageLuminance_def, foldl_histStep_totalLum]
    simp only [initHistState, zero_add, specLumSum, opaquePixels]
  · rw [analyzeImageHistogram_saturationLevel_def, foldl_histStep_totalSat]
    simp only [initHistState, zero_add, specSatSum, opaquePixels]

/-- **C1** (counterexample). For the 2×1 buffer with one opaque
(200,200,200,255) pixel and one fully transparent pixel, the code returns
`averageLuminance = 100` (it divides by the total pixel count 2), while the
claim's formula — the luminance sum over opaque pixels divided by the
number of opaque pixels — gives `200`. -/
theorem analyzeImageHistogram_average_not_over_opaque :
    ¬ ((analyzeImageHistogram [200, 200, 200, 255, 0, 0, 0, 0] 2 1).averageLuminance =
        ((specLumSum [200, 200, 200, 255, 0, 0, 0, 0] : ℚ)) /
          ((opaquePixels [200, 200, 200, 255, 0, 0, 0, 0]).length : ℚ)) := by
  have hpx : pixelList [200, 200, 200, 255, 0, 0, 0, 0] =
      [⟨200, 200, 200, 255⟩, ⟨0, 0, 0, 0⟩] := by decide
  have hop : opaquePixels [200, 200, 200, 255, 0, 0, 0, 0] = [⟨200, 200, 200, 255⟩] := by decide
  rw [analyzeImageHistogram_averageLuminance_def, hpx]
  rw [specLumSum, hop]
  norm_num [histStep, initHistState, pixelLuminance, jsRound]

/-! ## Contrast level bounds (C10) -/

lemma firstOverAux_lt_length {t cum : ℚ} {l : List ℕ} {r : ℕ}
    (h : firstOverAux t cum l = some r) : r < l.length := by
  induction l generalizing cum r with
  | nil => simp [firstOverAux] at h
  | cons c rest ih =>
    rw [firstOverAux] at h
    split at h
    · replace h : (0 : ℕ) = r := by simpa using h
      simp [← h]
    · rcases Option.map_eq_some'.1 h with ⟨r', hr', rfl⟩
      simpa using Nat.succ_lt_succ (ih hr')

lemma firstOverAux_break {t cum : ℚ} {l : List ℕ} {r : ℕ}
    (h : firstOverAux t cum l = some r) : t < cum + ((l.take (r+1)).sum : ℚ) := by
  induction l generalizing cum r with
  | nil => simp [firstOverAux] at h
  | cons c rest ih =>
    rw [firstOverAux] at h
    split at h
    · rename_i hc
      obtain rfl : (0 : ℕ) = r := by simpa using h
      simpa using hc
    · rcases Option.map_eq_some'.1 h with ⟨r', hr', rfl⟩
      have := ih hr'
      simp only [List.take_succ_cons, List.sum_cons]
      push_cast
      push_cast at this
      linarith

lemma firstOverAux_before_break {t cum : ℚ} {l : List ℕ} {r : ℕ}
    (h : firstOverAux t cum l = some r) :
    cum + ((l.take r).sum : ℚ) ≤ t ∨ r = 0 := by
  induction l generalizing cum r with
  | nil => simp [firstOverAux] at h
  | cons c rest ih =>
    rw [firstOverAux] at h
    split at h
    · right; simpa using h.symm
    · rename_i hc
      push_neg at hc
      rcases Option.map_eq_some'.1 h with ⟨r', hr', rfl⟩
      left
      rcases ih hr' with h' | rfl
      · simp only [List.take_succ_cons, List.sum_cons]
        push_cast
        push_cast at h'
        linarith
      · simpa using hc

lemma drop_sum_le_drop_sum (l : List ℕ) {m n : ℕ} (h : m ≤ n) :
    (l.drop n).sum ≤ (l.drop m).sum := by
  have : l.drop n = (l.drop m).drop (n - m) := by
    rw [List.drop_drop, Nat.add_sub_cancel' h]
  rw [this]
  calc ((l.drop m).drop (n - m)).sum
      ≤ ((l.drop m).take (n - m)).sum + ((l.drop m).drop (n - m)).sum := Nat.le_add_left _ _
    _ = (l.drop m).sum := List.sum_take_add_sum_drop _ _

lemma contrast_div_bounds {mn mx : ℕ} (h1 : mn ≤ mx) (h2 : mx ≤ 255) :
    0 ≤ ((mx : ℚ) - (mn : ℚ)) / 255 ∧ ((mx : ℚ) - (mn : ℚ)) / 255 ≤ 1 := by
  have h1' : (mn : ℚ) ≤ mx := by exact_mod_cast h1
  have h2' : (mx : ℚ) ≤ 255 := by exact_mod_cast h2
  have h0 : (0:ℚ) ≤ mn := Nat.cast_nonneg _
  constructor
  · apply div_nonneg _ (by norm_num)
    linarith
  · rw [div_le_one (by norm_num)]
    linarith

/-- The contrast scan never produces a low bin above the high bin: the core
inequality, over a 256-bin histogram. -/
lemma calculateContrastLevel_bounds (hist : List ℕ) (hlen : hist.length = 256) :
    0 ≤ calculateContrastLevel hist ∧ calculateContrastLevel hist ≤ 1 := by
  unfold calculateContrastLevel
  set t : ℚ := (hist.sum : ℚ) * 0.01 with ht
  rcases hmin : firstOverAux t 0 hist with _ | a
  · -- bottom-up loop never breaks: minSignificant = 0
    rcases hmax : firstOverAux t 0 hist.reverse with _ | r
    · simpa only [hmin, hmax, Option.getD_none, Nat.cast_zero] using
        contrast_div_bounds (Nat.zero_le 255) le_rfl
    · simpa only [hmin, hmax, Option.getD_none, Nat.cast_zero] using
        contrast_div_bounds (Nat.zero_le (255 - r)) (Nat.sub_le _ _)
  · have ha : a < 256 := by
      have := firstOverAux_lt_length hmin
      simpa [hlen] using this
    rcases hmax : firstOverAux t 0 hist.reverse with _ | r
    · -- top-down loop never breaks: maxSignificant = 255
      simpa only [hmin, hmax, Option.getD_some] using
        contrast_div_bounds (Nat.le_of_lt_succ ha) le_rfl
    · -- both loops break: the interesting case
      have hr : r < 256 := by
        have := firstOverAux_lt_length hmax
        simpa [hlen] using this
      have hkey : a ≤ 255 - r := by
        by_contra hcon
        push_neg at hcon
        -- then 256 - r ≤ a, so the prefix up to a and the suffix from a
        -- are each bounded by the 1% threshold, forcing sum = 0
        have ha1 : 1 ≤ a := by omega
        have hpre : (0:ℚ) + ((hist.take a).sum : ℚ) ≤ t := by
          rcases firstOverAux_before_break hmin with h' | h'
          · exact h'
          · omega
        have hsuf : (0:ℚ) + ((hist.reverse.take r).sum : ℚ) ≤ t := by
          rcases firstOverAux_before_break hmax with h' | h'
          · exact h'
          · exfalso; omega
        have hrev : (hist.reverse.take r).sum = (hist.drop (256 - r)).sum := by
          rw [List.take_reverse, List.sum_reverse, hlen]
        have hmono : (hist.drop a).sum ≤ (hist.drop (256 - r)).sum :=
          drop_sum_le_drop_sum hist (by omega)
        have hsplit : (hist.take a).sum + (hist.drop a).sum = hist.sum :=
          List.sum_take_add_sum_drop _ _
        have hsplitQ : ((hist.take a).sum : ℚ) + ((hist.drop a).sum : ℚ) = (hist.sum : ℚ) := by
          exact_mod_cast congrArg (Nat.cast : ℕ → ℚ) hsplit
        have hmonoQ : ((hist.drop a).sum : ℚ) ≤ ((hist.drop (256 - r)).sum : ℚ) := by
          exact_mod_cast hmono
        rw [hrev] at hsuf
        have htot : ((hist.sum : ℚ)) ≤ t + t := by linarith
        -- 1% + 1% of the total can only dominate the total if it is zero
        have hsumnn : (0:ℚ) ≤ (hist.sum : ℚ) := Nat.cast_nonneg _
        have hsum0 : (hist.sum : ℚ) = 0 := by
          rw [ht] at htot
          nlinarith
        -- but the break condition of the bottom-up scan needs t < a prefix sum
        have hbr := firstOverAux_break hmin
        have hle : ((hist.take (a+1)).sum : ℚ) ≤ (hist.sum : ℚ) := by
          have h' : (hist.take (a+1)).sum ≤ hist.sum := by
            calc (hist.take (a+1)).sum
                ≤ (hist.take (a+1)).sum + (hist.drop (a+1)).sum := Nat.le_add_right _ _
              _ = hist.sum := List.sum_take_add_sum_drop _ _
          exact_mod_cast h'
        rw [ht] at hbr
        rw [hsum0] at hbr hle
        rw [zero_mul, zero_add] at hbr
        linarith
      simpa only [hmin, hmax, Option.getD_some] using
        contrast_div_bounds hkey (Nat.sub_le _ _)

/-- **C10** (confirmed). For every input buffer — including buffers with no
opaque pixels — the `contrastLevel` returned by the Histogram Analyzer lies
in `[0, 1]`: the bottom-up significant bin never exceeds the top-down one. -/
theorem analyzeImageHistogram_contrastLevel_mem_unit (data : List ℕ) (width height : ℕ) :
    0 ≤ (analyzeImageHistogram data width height).contrastLevel ∧
      (analyzeImageHistogram data width height).contrastLevel ≤ 1 := by
  rw [analyzeImageHistogram_contrastLevel_def]
  apply calculateContrastLevel_bounds
  rw [foldl_histStep_lumHist_length]
  show (List.replicate 256 (0:ℕ)).length = 256
  exact List.length_replicate 256 0

/-! ## Generic lemmas: rounding, writes, coordinate lists -/

lemma jsRound_cast_le (q : ℚ) : (jsRound q : ℚ) ≤ q + 1/2 := Int.floor_le _

lemma lt_jsRound_cast (q : ℚ) : q - 1/2 < (jsRound q : ℚ) := by
  have := Int.lt_floor_add_one (q + 1/2)
  unfold jsRound
  linarith

lemma jsRound_nonneg {q : ℚ} (h : 0 ≤ q) : 0 ≤ jsRound q :=
  Int.floor_nonneg.2 (by linarith)

lemma jsRound_cast_nonneg {q : ℚ} (h : 0 ≤ q) : (0 : ℚ) ≤ (jsRound q : ℤ) := by
  exact_mod_cast jsRound_nonneg h

lemma jsRound_zero : jsRound 0 = 0 := by
  unfold jsRound
  norm_num

lemma one_le_jsRound {q : ℚ} (h : 1/2 ≤ q) : 1 ≤ jsRound q :=
  Int.le_floor.2 (by push_cast; linarith)

lemma applyWrites_nil (buf : List ℕ) : applyWrites [] buf = buf := rfl

lemma applyWrites_cons (iv : ℕ × ℕ) (ws : List (ℕ × ℕ)) (buf : List ℕ) :
    applyWrites (iv :: ws) buf = applyWrites ws (buf.set iv.1 iv.2) := rfl

lemma applyWrites_append (ws₁ ws₂ : List (ℕ × ℕ)) (buf : List ℕ) :
    applyWrites (ws₁ ++ ws₂) buf = applyWrites ws₂ (applyWrites ws₁ buf) := by
  unfold applyWrites
  exact List.foldl_append _ _ _ _

lemma applyWrites_length (ws : List (ℕ × ℕ)) (buf : List ℕ) :
    (applyWrites ws buf).length = buf.length := by
  induction ws generalizing buf with
  | nil => rfl
  | cons iv rest ih => rw [applyWrites_cons, ih, List.length_set]

lemma getD_set_ne (buf : List ℕ) {i j : ℕ} (h : i ≠ j) (v : ℕ) :
    (buf.set i v).getD j 0 = buf.getD j 0 := by
  rw [List.getD_eq_getElem?_getD, List.getD_eq_getElem?_getD, List.getElem?_set_ne h]

lemma getD_set_self (buf : List ℕ) {i : ℕ} (h : i < buf.length) (v : ℕ) :
    (buf.set i v).getD i 0 = v := by
  rw [List.getD_eq_getElem?_getD, List.getElem?_set_self h]
  rfl

lemma applyWrites_getD_of_notMem (ws : List (ℕ × ℕ)) (buf : List ℕ) {i : ℕ}
    (h : ∀ iv ∈ ws, iv.1 ≠ i) :
    (applyWrites ws buf).getD i 0 = buf.getD i 0 := by
  induction ws generalizing buf with
  | nil => rfl
  | cons iv rest ih =>
    rw [applyWrites_cons, ih _ (fun jv hjv => h jv (List.mem_cons_of_mem _ hjv))]
    exact getD_set_ne buf (h iv (List.mem_cons_self _ _)) _

lemma mem_rowMajor {h w : ℕ} {p : ℕ × ℕ} :
    p ∈ rowMajor h w ↔ p.1 < h ∧ p.2 < w := by
  rcases p with ⟨y, x⟩
  simp only [rowMajor, List.mem_flatMap, List.mem_map, List.mem_range]
  constructor
  · rintro ⟨y', hy', x', hx', heq⟩
    obtain ⟨rfl, rfl⟩ : y' = y ∧ x' = x := by
      constructor <;> [exact congrArg Prod.fst heq; exact congrArg Prod.snd heq]
    exact ⟨hy', hx'⟩
  · rintro ⟨hy, hx⟩
    exact ⟨y, hy, x, hx, rfl⟩

lemma mem_interiorPixels {w h : ℕ} {p : ℕ × ℕ} :
    p ∈ interiorPixels w h ↔ (1 ≤ p.1 ∧ p.1 < h - 1 ∧ 1 ≤ p.2 ∧ p.2 < w - 1) := by
  rcases p with ⟨y, x⟩
  simp only [interiorPixels, List.mem_flatMap, List.mem_map, List.mem_range'_1]
  constructor
  · rintro ⟨y', hy', x', hx', heq⟩
    obtain ⟨rfl, rfl⟩ : y' = y ∧ x' = x := by
      constructor <;> [exact congrArg Prod.fst heq; exact congrArg Prod.snd heq]
    refine ⟨hy'.1, by omega, hx'.1, by omega⟩
  · rintro ⟨hy1, hy2, hx1, hx2⟩
    exact ⟨y, ⟨hy1, by omega⟩, x, ⟨hx1, by omega⟩, rfl⟩

lemma nodup_pairList (ys xs : List ℕ) (hy : ys.Nodup) (hx : xs.Nodup) :
    (ys.flatMap (fun y => xs.map (fun x => (y, x)))).Nodup := by
  rw [List.nodup_flatMap]
  constructor
  · intro y _
    exact hx.map (fun a b hab => congrArg Prod.snd hab)
  · apply hy.pairwise_of_forall_ne
    intro a b _ _ hab
    simp only [Function.onFun, List.Disjoint]
    rintro ⟨y, x⟩ hmem hmem'
    simp only [List.mem_map] at hmem hmem'
    rcases hmem with ⟨x₁, _, heq₁⟩
    rcases hmem' with ⟨x₂, _, heq₂⟩
    exact hab ((congrArg Prod.fst heq₁).trans (congrArg Prod.fst heq₂).symm)

lemma nodup_rowMajor (h w : ℕ) : (rowMajor h w).Nodup :=
  nodup_pairList _ _ (List.nodup_range _) (List.nodup_range _)

lemma pix_index_inj {w cy cx cy' cx' : ℕ} (h1 : cx < w) (h2 : cx' < w)
    (heq : cy * w + cx = cy' * w + cx') : cy = cy' ∧ cx = cx' := by
  have hw : 0 < w := lt_of_le_of_lt (Nat.zero_le _) h1
  have e1 : (cy * w + cx) / w = cy := by
    rw [Nat.add_comm, Nat.mul_comm, Nat.add_mul_div_left _ _ hw, Nat.div_eq_of_lt h1,
      Nat.zero_add]
  have e2 : (cy' * w + cx') / w = cy' := by
    rw [Nat.add_comm, Nat.mul_comm, Nat.add_mul_div_left _ _ hw, Nat.div_eq_of_lt h2,
      Nat.zero_add]
  have hcy : cy = cy' := by rw [← e1, ← e2, heq]
  refine ⟨hcy, ?_⟩
  subst hcy
  omega

/-- In a fold of per-position write batches over a duplicate-free position
list, if `p₀`'s own batch leaves index `i` holding `v` (on any buffer of
the right length) and no other position's batch touches `i`, then the
final buffer holds `v` at `i`. -/
lemma applyWrites_flatMap_getD {α : Type} [DecidableEq α] (f : α → List (ℕ × ℕ))
    (L : List α) (p₀ : α) (i v N : ℕ)
    (hmem : p₀ ∈ L) (hnd : L.Nodup)
    (hself : ∀ buf : List ℕ, buf.length = N → (applyWrites (f p₀) buf).getD i 0 = v)
    (hothers : ∀ q ∈ L, q ≠ p₀ → ∀ iv ∈ f q, iv.1 ≠ i) :
    ∀ buf : List ℕ, buf.length = N →
      (applyWrites (L.flatMap f) buf).getD i 0 = v := by
  induction L with
  | nil => cases hmem
  | cons q rest ih =>
    intro buf hbuf
    rw [List.flatMap_cons, applyWrites_append]
    by_cases hq : q = p₀
    · subst hq
      have hnotin : q ∉ rest := (List.nodup_cons.1 hnd).1
      rw [applyWrites_getD_of_notMem]
      · exact hself buf hbuf
      · intro iv hiv
        rcases List.mem_flatMap.1 hiv with ⟨q', hq', hiv'⟩
        exact hothers q' (List.mem_cons_of_mem _ hq')
          (fun he => hnotin (he ▸ hq')) iv hiv'
    · rcases List.mem_cons.1 hmem with rfl | hmem'
      · exact absurd rfl hq
      · exact ih hmem' (List.nodup_cons.1 hnd).2
          (fun q' hq' => hothers q' (List.mem_cons_of_mem _ hq'))
          _ (by rw [applyWrites_length, hbuf])

/-! ## Crop application (C3) -/

lemma cropImageData_length (data : List ℕ) (originalWidth : ℕ) (r : RectN) :
    (cropImageData data originalWidth r).length = r.width * r.height * 4 := by
  unfold cropImageData
  rw [applyWrites_length, List.length_replicate]

/-- **C3** (counterexample). Cropping a 1×1 source with the out-of-bounds
rectangle `{x:0, y:0, width:2, height:1}` does not fail: it silently
produces a 2×1 result whose out-of-range reads yield zero bytes. -/
theorem cropImageData_silently_accepts_out_of_bounds :
    cropImageData [10, 20, 30, 255] 1 ⟨0, 0, 2, 1⟩ = [10, 20, 30, 255, 0, 0, 0, 0] := by
  decide

lemma applyWrites_quad_getD (buf : List ℕ) (b c v0 v1 v2 v3 : ℕ)
    (hb : b + 3 < buf.length) (hc : c < 4) :
    (applyWrites [(b, v0), (b+1, v1), (b+2, v2), (b+3, v3)] buf).getD (b+c) 0 =
      [v0, v1, v2, v3].getD c 0 := by
  show ((((buf.set b v0).set (b+1) v1).set (b+2) v2).set (b+3) v3).getD (b+c) 0 = _
  have hlen : ∀ i v, (buf.set i v).length = buf.length := fun i v => List.length_set buf i v
  interval_cases c
  · rw [getD_set_ne _ (by omega), getD_set_ne _ (by omega), getD_set_ne _ (by omega)]
    rw [show b + 0 = b by omega]
    rw [getD_set_self _ (by omega)]
    rfl
  · rw [getD_set_ne _ (by omega), getD_set_ne _ (by omega)]
    rw [getD_set_self _ (by simp only [List.length_set]; omega)]
    rfl
  · rw [getD_set_ne _ (by omega)]
    rw [getD_set_self _ (by simp only [List.length_set]; omega)]
    rfl
  · rw [getD_set_self _ (by simp only [List.length_set]; omega)]
    rfl

/-- **C3** (amended). The crop-application operation never fails: for every
source buffer and every integer rectangle — in bounds or not — it totally
produces a buffer of the rectangle's size, and whenever the addressed
source position exists it copies that byte verbatim (reads past the source
silently yield 0 rather than raising). -/
theorem cropImageData_never_fails (data : List ℕ) (W : ℕ) (r : RectN) (cy cx c : ℕ)
    (hcy : cy < r.height) (hcx : cx < r.width) (hc : c < 4) :
    (cropImageData data W r).length = r.width * r.height * 4 ∧
    (cropImageData data W r).getD ((cy * r.width + cx) * 4 + c) 0 =
      data.getD (((r.y + cy) * W + (r.x + cx)) * 4 + c) 0 := by
  refine ⟨cropImageData_length data W r, ?_⟩
  unfold cropImageData
  have hpix : cy * r.width + cx < r.width * r.height := by
    have hstep : cy * r.width + cx < (cy + 1) * r.width := by
      rw [Nat.succ_mul]; omega
    have hmul : (cy + 1) * r.width ≤ r.height * r.width :=
      Nat.mul_le_mul_right _ (by omega)
    rw [Nat.mul_comm r.height r.width] at hmul
    omega
  apply applyWrites_flatMap_getD (cropPixelWrites data W r)
    (rowMajor r.height r.width) (cy, cx) _ _ (r.width * r.height * 4)
    (mem_rowMajor.2 ⟨hcy, hcx⟩) (nodup_rowMajor _ _)
  · intro buf hbuf
    have hself := applyWrites_quad_getD buf ((cy * r.width + cx) * 4) c
      (data.getD (((r.y + cy) * W + (r.x + cx)) * 4) 0)
      (data.getD (((r.y + cy) * W + (r.x + cx)) * 4 + 1) 0)
      (data.getD (((r.y + cy) * W + (r.x + cx)) * 4 + 2) 0)
      (data.getD (((r.y + cy) * W + (r.x + cx)) * 4 + 3) 0)
      (by rw [hbuf]; omega) hc
    rw [show cropPixelWrites data W r (cy, cx) =
      [((cy * r.width + cx) * 4, data.getD (((r.y + cy) * W + (r.x + cx)) * 4) 0),
       ((cy * r.width + cx) * 4 + 1, data.getD (((r.y + cy) * W + (r.x + cx)) * 4 + 1) 0),
       ((cy * r.width + cx) * 4 + 2, data.getD (((r.y + cy) * W + (r.x + cx)) * 4 + 2) 0),
       ((cy * r.width + cx) * 4 + 3, data.getD (((r.y + cy) * W + (r.x + cx)) * 4 + 3) 0)]
      from rfl]
    rw [hself]
    interval_cases c <;> rfl
  · rintro ⟨qy, qx⟩ hqmem hqne iv hiv
    have hq := mem_rowMajor.1 hqmem
    simp only [cropPixelWrites, List.mem_cons, List.not_mem_nil, or_false] at hiv
    have hfst : iv.1 = (qy * r.width + qx) * 4 ∨ iv.1 = (qy * r.width + qx) * 4 + 1 ∨
        iv.1 = (qy * r.width + qx) * 4 + 2 ∨ iv.1 = (qy * r.width + qx) * 4 + 3 := by
      rcases hiv with rfl | rfl | rfl | rfl
      · exact Or.inl rfl
      · exact Or.inr (Or.inl rfl)
      · exact Or.inr (Or.inr (Or.inl rfl))
      · exact Or.inr (Or.inr (Or.inr rfl))
    intro hieq
    have hbase : qy * r.width + qx = cy * r.width + cx := by
      rcases hfst with h' | h' | h' | h' <;> rw [h'] at hieq <;> omega
    have := pix_index_inj hq.2 hcx hbase
    exact hqne (by rw [Prod.mk.injEq]; exact ⟨this.1, this.2⟩)
  · exact List.length_replicate _ _

/-- Witness for `cropImageData_never_fails` at the in-bounds 1×1 crop of a
1×1 source. -/
theorem cropImageData_never_fails_witness :
    ((0 < 1 ∧ 0 < 1 ∧ 0 < 4) ∧
     (cropImageData [10, 20, 30, 255] 1 ⟨0, 0, 1, 1⟩).length = 1 * 1 * 4 ∧
     (cropImageData [10, 20, 30, 255] 1 ⟨0, 0, 1, 1⟩).getD ((0 * 1 + 0) * 4 + 0) 0 =
       [10, 20, 30, 255].getD (((0 + 0) * 1 + (0 + 0)) * 4 + 0) 0) :=
  ⟨⟨by decide, by decide, by decide⟩,
   cropImageData_never_fails [10, 20, 30, 255] 1 ⟨0, 0, 1, 1⟩ 0 0 0
     (by decide) (by decide) (by decide)⟩

/-! ## Crop-bounds pipeline lemmas (C4, C6, C7) -/

lemma findOptimalCropBounds_of_none {mask : List ℕ} {W H : ℕ} {p m : ℚ}
    (h : findSubjectBounds mask W H = none) :
    findOptimalCropBounds mask W H p m =
      normalizeAspect (applyCropPadding (ensureMinSize (fallbackBounds W H) m) W H p) := by
  unfold findOptimalCropBounds
  rw [h]

lemma findOptimalCropBounds_of_some {mask : List ℕ} {W H : ℕ} {p m : ℚ} {b : CropBounds}
    (h : findSubjectBounds mask W H = some b) :
    findOptimalCropBounds mask W H p m =
      normalizeAspect (applyCropPadding (ensureMinSize b m) W H p) := by
  unfold findOptimalCropBounds
  rw [h]

lemma getD_ne_one_of_forall {mask : List ℕ} (h : ∀ v ∈ mask, v ≠ 1) (i : ℕ) :
    mask.getD i 0 ≠ 1 := by
  rw [List.getD_eq_getElem?_getD]
  rcases h' : mask[i]? with _ | v
  · simp
  · simpa using h v (List.getElem?_mem h')

lemma findSubjectBounds_of_empty {mask : List ℕ} {W H : ℕ} (h : ∀ v ∈ mask, v ≠ 1) :
    findSubjectBounds mask W H = none := by
  unfold findSubjectBounds
  have hfold : ∀ (l : List (ℕ × ℕ)) (st : SubjState),
      l.foldl (subjStep mask W) st = st := by
    intro l
    induction l with
    | nil => intro st; rfl
    | cons p rest ih =>
      intro st
      rw [List.foldl_cons]
      rw [show subjStep mask W st p = st from if_neg (getD_ne_one_of_forall h _)]
      exact ih st
  rw [hfold]
  rfl

lemma fallbackBounds_x (W H : ℕ) :
    (fallbackBounds W H).x =
      ((jsRound (((W : ℚ) - ((min W H : ℕ) : ℚ) * 0.8) / 2) : ℤ) : ℚ) := rfl

lemma fallbackBounds_y (W H : ℕ) :
    (fallbackBounds W H).y =
      ((jsRound (((H : ℚ) - ((min W H : ℕ) : ℚ) * 0.8) / 2) : ℤ) : ℚ) := rfl

lemma fallbackBounds_width (W H : ℕ) :
    (fallbackBounds W H).width = ((min W H : ℕ) : ℚ) * 0.8 := rfl

lemma fallbackBounds_height (W H : ℕ) :
    (fallbackBounds W H).height = ((min W H : ℕ) : ℚ) * 0.8 := rfl

lemma ensureMinSize_of_large {b : CropBounds} {m : ℚ}
    (h : ¬(b.width < m ∨ b.height < m)) : ensureMinSize b m = b := by
  unfold ensureMinSize
  rw [if_neg h]

lemma applyCropPadding_zero {b : CropBounds} {W H : ℕ}
    (hx : 0 ≤ b.x) (hy : 0 ≤ b.y)
    (hxw : ¬((W : ℚ) < b.x + b.width)) (hyh : ¬((H : ℚ) < b.y + b.height)) :
    applyCropPadding b W H 0 = b := by
  unfold applyCropPadding
  simp only [mul_zero, jsRound_zero, Int.cast_zero, sub_zero, add_zero, max_eq_right hx,
    max_eq_right hy, if_neg hxw, if_neg hyh]

lemma normalizeAspect_of_moderate {b : CropBounds}
    (h1 : ¬(3 < b.width / b.height)) (h2 : ¬(b.width / b.height < 0.33)) :
    normalizeAspect b = b := by
  unfold normalizeAspect
  rw [if_neg (by tauto)]

lemma jsRound_half_le {d : ℚ} (hd : 0 < d) : ((jsRound (d/2) : ℤ) : ℚ) ≤ d := by
  rcases le_or_lt 1 d with h1 | h1
  · have := jsRound_cast_le (d/2)
    linarith
  · have hlt : jsRound (d/2) < 1 := by
      unfold jsRound
      rw [Int.floor_lt]
      push_cast
      linarith
    have : jsRound (d/2) ≤ 0 := by omega
    have : ((jsRound (d/2) : ℤ) : ℚ) ≤ 0 := by exact_mod_cast this
    linarith

lemma abs_jsRound_sub_le (z : ℚ) : |((jsRound z : ℤ) : ℚ) - z| ≤ 1/2 := by
  rw [abs_le]
  constructor
  · have := lt_jsRound_cast z
    linarith
  · have := jsRound_cast_le z
    linarith

/-- **C4** (amended). With an all-zero mask the crop computation does not
fail: it takes the fallback path and — provided `paddingPercentage = 0` and
`minCropSize` does not exceed the fallback side — returns a square of side
exactly `0.8 * min(imageWidth, imageHeight)`, centered within half a pixel
of rounding.  (Under the default options the fallback square is further
min-size-enforced and padded, so the returned box differs; see the
counterexample.) -/
theorem findOptimalCropBounds_empty_mask_fallback
    (mask : List ℕ) (W H : ℕ) (m : ℚ)
    (hW : 1 ≤ W) (hH : 1 ≤ H)
    (hmask : ∀ v ∈ mask, v ≠ 1)
    (hm : m ≤ ((min W H : ℕ) : ℚ) * 0.8) :
    (findOptimalCropBounds mask W H 0 m).width = ((min W H : ℕ) : ℚ) * 0.8 ∧
    (findOptimalCropBounds mask W H 0 m).height = ((min W H : ℕ) : ℚ) * 0.8 ∧
    |(findOptimalCropBounds mask W H 0 m).x -
      ((W : ℚ) - ((min W H : ℕ) : ℚ) * 0.8) / 2| ≤ 1/2 ∧
    |(findOptimalCropBounds mask W H 0 m).y -
      ((H : ℚ) - ((min W H : ℕ) : ℚ) * 0.8) / 2| ≤ 1/2 := by
  set s : ℚ := ((min W H : ℕ) : ℚ) * 0.8 with hs
  -- basic facts about the fallback square
  have hmin1 : (1 : ℚ) ≤ ((min W H : ℕ) : ℚ) := by
    have : 1 ≤ min W H := le_min hW hH
    exact_mod_cast this
  have hminW : ((min W H : ℕ) : ℚ) ≤ (W : ℚ) := by
    exact_mod_cast min_le_left W H
  have hminH : ((min W H : ℕ) : ℚ) ≤ (H : ℚ) := by
    exact_mod_cast min_le_right W H
  have hs08 : (0.8 : ℚ) ≤ s := by rw [hs]; nlinarith
  have hsW : s < (W : ℚ) := by rw [hs]; nlinarith
  have hsH : s < (H : ℚ) := by rw [hs]; nlinarith
  have hx0 : (0 : ℚ) ≤ (fallbackBounds W H).x := by
    rw [fallbackBounds_x]
    exact jsRound_cast_nonneg (by rw [← hs]; linarith)
  have hy0 : (0 : ℚ) ≤ (fallbackBounds W H).y := by
    rw [fallbackBounds_y]
    exact jsRound_cast_nonneg (by rw [← hs]; linarith)
  have hxW : (fallbackBounds W H).x + (fallbackBounds W H).width ≤ (W : ℚ) := by
    rw [fallbackBounds_x, fallbackBounds_width, ← hs]
    have := jsRound_half_le (d := (W : ℚ) - s) (by linarith)
    linarith
  have hyH : (fallbackBounds W H).y + (fallbackBounds W H).height ≤ (H : ℚ) := by
    rw [fallbackBounds_y, fallbackBounds_height, ← hs]
    have := jsRound_half_le (d := (H : ℚ) - s) (by linarith)
    linarith
  have heq : findOptimalCropBounds mask W H 0 m = fallbackBounds W H := by
    rw [findOptimalCropBounds_of_none (findSubjectBounds_of_empty hmask)]
    rw [ensureMinSize_of_large (by
      rw [fallbackBounds_width, fallbackBounds_height, ← hs]
      push_neg
      exact ⟨hm, hm⟩)]
    rw [applyCropPadding_zero hx0 hy0 (by push_neg; exact hxW) (by push_neg; exact hyH)]
    apply normalizeAspect_of_moderate <;>
      rw [fallbackBounds_width, fallbackBounds_height, ← hs,
        div_self (by linarith : s ≠ 0)] <;> norm_num
  rw [heq, fallbackBounds_width, fallbackBounds_height, fallbackBounds_x, fallbackBounds_y,
    ← hs]
  exact ⟨rfl, rfl, abs_jsRound_sub_le _, abs_jsRound_sub_le _⟩

/-- Witness for `findOptimalCropBounds_empty_mask_fallback`: a 10×10 image
with an all-zero mask, `paddingPercentage = 0`, `minCropSize = 1`. -/
theorem findOptimalCropBounds_empty_mask_fallback_witness :
    (1 ≤ 10 ∧ (∀ v ∈ List.replicate 100 (0 : ℕ), v ≠ 1) ∧
      (1 : ℚ) ≤ ((min 10 10 : ℕ) : ℚ) * 0.8) ∧
    ((findOptimalCropBounds (List.replicate 100 0) 10 10 0 1).width =
        ((min 10 10 : ℕ) : ℚ) * 0.8 ∧
      (findOptimalCropBounds (List.replicate 100 0) 10 10 0 1).height =
        ((min 10 10 : ℕ) : ℚ) * 0.8 ∧
      |(findOptimalCropBounds (List.replicate 100 0) 10 10 0 1).x -
        ((10 : ℚ) - ((min 10 10 : ℕ) : ℚ) * 0.8) / 2| ≤ 1/2 ∧
      |(findOptimalCropBounds (List.replicate 100 0) 10 10 0 1).y -
        ((10 : ℚ) - ((min 10 10 : ℕ) : ℚ) * 0.8) / 2| ≤ 1/2) :=
  ⟨⟨by norm_num, by decide, by norm_num⟩,
   findOptimalCropBounds_empty_mask_fallback (List.replicate 100 0) 10 10 1
     (by norm_num) (by norm_num) (by decide) (by norm_num)⟩

/-- **C4** (counterexample). For a 5×5 image, an all-zero mask, and the
default options (`paddingPercentage = 0.15`, `minCropSize = 100`), the crop
computation returns the full-frame square `{x:0, y:0, width:5, height:5}`
(the fallback square is scaled up to the minimum size and then trimmed to
the image), not the centered square of side `0.8 * min(5,5) = 4` the claim
demands. -/
theorem findOptimalCropBounds_empty_mask_not_fallback_square :
    ¬ ((findOptimalCropBounds (List.replicate 25 0) 5 5 0.15 100).width =
        ((min 5 5 : ℕ) : ℚ) * 0.8) := by
  rw [findOptimalCropBounds_of_none
    (findSubjectBounds_of_empty (by decide : ∀ v ∈ List.replicate 25 (0:ℕ), v ≠ 1))]
  norm_num [fallbackBounds, ensureMinSize, applyCropPadding, normalizeAspect, jsRound]

/-! ## The Rectangle invariant of the crop pipeline (C6) -/

lemma jsRound_nonneg_of_half {q : ℚ} (h : -(1/2) ≤ q) : 0 ≤ jsRound q :=
  Int.floor_nonneg.2 (by linarith)

lemma jsRound_mono {a b : ℚ} (h : a ≤ b) : jsRound a ≤ jsRound b :=
  Int.floor_le_floor (by linarith)

lemma isIntQ_intCast (n : ℤ) : IsIntQ (n : ℚ) := ⟨n, rfl⟩

lemma isIntQ_natCast (n : ℕ) : IsIntQ (n : ℚ) := ⟨(n : ℤ), by push_cast; ring⟩

lemma IsIntQ.sub {a b : ℚ} (ha : IsIntQ a) (hb : IsIntQ b) : IsIntQ (a - b) := by
  obtain ⟨n, rfl⟩ := ha
  obtain ⟨m, rfl⟩ := hb
  exact ⟨n - m, by push_cast; ring⟩

lemma IsIntQ.add {a b : ℚ} (ha : IsIntQ a) (hb : IsIntQ b) : IsIntQ (a + b) := by
  obtain ⟨n, rfl⟩ := ha
  obtain ⟨m, rfl⟩ := hb
  exact ⟨n + m, by push_cast; ring⟩

lemma IsIntQ.max' {a b : ℚ} (ha : IsIntQ a) (hb : IsIntQ b) : IsIntQ (max a b) := by
  obtain ⟨n, rfl⟩ := ha
  obtain ⟨m, rfl⟩ := hb
  refine ⟨max n m, ?_⟩
  rcases le_total n m with h | h
  · rw [max_eq_right h, max_eq_right (by exact_mod_cast h)]
  · rw [max_eq_left h, max_eq_left (by exact_mod_cast h)]

lemma IsIntQ.min' {a b : ℚ} (ha : IsIntQ a) (hb : IsIntQ b) : IsIntQ (min a b) := by
  obtain ⟨n, rfl⟩ := ha
  obtain ⟨m, rfl⟩ := hb
  refine ⟨min n m, ?_⟩
  rcases le_total n m with h | h
  · rw [min_eq_left h, min_eq_left (by exact_mod_cast h)]
  · rw [min_eq_right h, min_eq_right (by exact_mod_cast h)]

lemma IsIntQ.double {a : ℚ} (ha : IsIntQ a) : IsIntQ (2 * a) := by
  obtain ⟨n, rfl⟩ := ha
  exact ⟨2 * n, by push_cast; ring⟩

lemma subjFold_shape (mask : List ℕ) (W H : ℕ) :
    ∀ (l : List (ℕ × ℕ)), (∀ p ∈ l, p.1 < H ∧ p.2 < W) →
    ∀ st : SubjState, st.maxX < W → st.maxY < H →
      (st.count ≠ 0 → st.minX ≤ st.maxX ∧ st.minY ≤ st.maxY) →
      ((l.foldl (subjStep mask W) st).maxX < W ∧
       (l.foldl (subjStep mask W) st).maxY < H ∧
       ((l.foldl (subjStep mask W) st).count ≠ 0 →
         (l.foldl (subjStep mask W) st).minX ≤ (l.foldl (subjStep mask W) st).maxX ∧
         (l.foldl (subjStep mask W) st).minY ≤ (l.foldl (subjStep mask W) st).maxY)) := by
  intro l
  induction l with
  | nil => exact fun _ st h1 h2 h3 => ⟨h1, h2, h3⟩
  | cons p rest ih =>
    intro hmem st h1 h2 h3
    rw [List.foldl_cons]
    have hp := hmem p (List.mem_cons_self _ _)
    have hrest := fun q hq => hmem q (List.mem_cons_of_mem _ hq)
    unfold subjStep
    split_ifs with hhit
    · exact ih hrest _ (by simp only; omega) (by simp only; omega)
        (fun _ => ⟨by simp only; omega, by simp only; omega⟩)
    · exact ih hrest st h1 h2 h3

lemma findSubjectBounds_prePadGood {mask : List ℕ} {W H : ℕ} {b : CropBounds}
    (hW : 1 ≤ W) (hH : 1 ≤ H) (h : findSubjectBounds mask W H = some b) :
    PrePadGood b W H := by
  unfold findSubjectBounds at h
  dsimp only at h
  set st := (rowMajor H W).foldl (subjStep mask W) ⟨W, 0, H, 0, 0⟩ with hst
  have hshape := subjFold_shape mask W H (rowMajor H W)
    (fun q hq => (mem_rowMajor.1 hq)) ⟨W, 0, H, 0, 0⟩ hW hH (fun hc => absurd rfl hc)
  rw [← hst] at hshape
  split_ifs at h with hc
  case neg =>
    obtain ⟨hmaxX, hmaxY, hminmax⟩ := hshape
    obtain ⟨hx, hy⟩ := hminmax hc
    have hb : b = ⟨(st.minX : ℚ), (st.minY : ℚ),
        ((st.maxX - st.minX + 1 : ℕ) : ℚ), ((st.maxY - st.minY + 1 : ℕ) : ℚ)⟩ :=
      (Option.some.inj h).symm
    subst hb
    refine ⟨isIntQ_natCast _, isIntQ_natCast _, Nat.cast_nonneg _, ?_, Nat.cast_nonneg _, ?_,
      ?_, ?_, Or.inr ⟨isIntQ_natCast _, isIntQ_natCast _⟩⟩
    · show (st.minX : ℚ) < (W : ℚ)
      exact_mod_cast lt_of_le_of_lt hx hmaxX
    · show (st.minY : ℚ) < (H : ℚ)
      exact_mod_cast lt_of_le_of_lt hy hmaxY
    · show (4/5 : ℚ) ≤ ((st.maxX - st.minX + 1 : ℕ) : ℚ)
      have h1 : (1 : ℕ) ≤ st.maxX - st.minX + 1 := by omega
      have h1' : (1 : ℚ) ≤ ((st.maxX - st.minX + 1 : ℕ) : ℚ) := by exact_mod_cast h1
      linarith
    · show (4/5 : ℚ) ≤ ((st.maxY - st.minY + 1 : ℕ) : ℚ)
      have h1 : (1 : ℕ) ≤ st.maxY - st.minY + 1 := by omega
      have h1' : (1 : ℚ) ≤ ((st.maxY - st.minY + 1 : ℕ) : ℚ) := by exact_mod_cast h1
      linarith

lemma fallbackBounds_prePadGood (W H : ℕ) (hW : 1 ≤ W) (hH : 1 ≤ H) :
    PrePadGood (fallbackBounds W H) W H := by
  set s : ℚ := ((min W H : ℕ) : ℚ) * 0.8 with hs
  have hmin1 : (1 : ℚ) ≤ ((min W H : ℕ) : ℚ) := by
    have : 1 ≤ min W H := le_min hW hH
    exact_mod_cast this
  have hminW : ((min W H : ℕ) : ℚ) ≤ (W : ℚ) := by exact_mod_cast min_le_left W H
  have hminH : ((min W H : ℕ) : ℚ) ≤ (H : ℚ) := by exact_mod_cast min_le_right W H
  have hs08 : (4/5 : ℚ) ≤ s := by rw [hs]; nlinarith
  have hsW : s < (W : ℚ) := by rw [hs]; nlinarith
  have hsH : s < (H : ℚ) := by rw [hs]; nlinarith
  refine ⟨⟨jsRound (((W : ℚ) - s) / 2), by rw [fallbackBounds_x, ← hs]⟩,
    ⟨jsRound (((H : ℚ) - s) / 2), by rw [fallbackBounds_y, ← hs]⟩, ?_, ?_, ?_, ?_, ?_, ?_, ?_⟩
  · rw [fallbackBounds_x, ← hs]
    exact jsRound_cast_nonneg (by linarith)
  · rw [fallbackBounds_x, ← hs]
    have := jsRound_half_le (d := (W : ℚ) - s) (by linarith)
    linarith
  · rw [fallbackBounds_y, ← hs]
    exact jsRound_cast_nonneg (by linarith)
  · rw [fallbackBounds_y, ← hs]
    have := jsRound_half_le (d := (H : ℚ) - s) (by linarith)
    linarith
  · rw [fallbackBounds_width, ← hs]; exact hs08
  · rw [fallbackBounds_height, ← hs]; exact hs08
  · left
    rw [fallbackBounds_width, fallbackBounds_height]

lemma ensureMinSize_prePadGood {b : CropBounds} {W H : ℕ} {m : ℚ}
    (hb : PrePadGood b W H) : PrePadGood (ensureMinSize b m) W H := by
  obtain ⟨⟨nx, hnx⟩, ⟨ny, hny⟩, hx0, hxW, hy0, hyH, hw, hh, hdims⟩ := hb
  unfold ensureMinSize
  split_ifs with hcond
  case neg => exact ⟨⟨nx, hnx⟩, ⟨ny, hny⟩, hx0, hxW, hy0, hyH, hw, hh, hdims⟩
  case pos =>
    dsimp only
    set scale := max (m / b.width) (m / b.height) with hscale
    have hwpos : (0:ℚ) < b.width := by linarith
    have hhpos : (0:ℚ) < b.height := by linarith
    have hscale1 : 1 < scale := by
      rcases hcond with hcase | hcase
      · exact lt_of_lt_of_le ((one_lt_div hwpos).2 hcase) (le_max_left _ _)
      · exact lt_of_lt_of_le ((one_lt_div hhpos).2 hcase) (le_max_right _ _)
    have hws : b.width ≤ b.width * scale := by nlinarith
    have hhs : b.height ≤ b.height * scale := by nlinarith
    have hnewW1 : (1:ℚ) ≤ ((jsRound (b.width * scale) : ℤ) : ℚ) := by
      exact_mod_cast one_le_jsRound (q := b.width * scale) (by linarith)
    have hnewH1 : (1:ℚ) ≤ ((jsRound (b.height * scale) : ℤ) : ℚ) := by
      exact_mod_cast one_le_jsRound (q := b.height * scale) (by linarith)
    have hjx0 : (0:ℚ) ≤
        ((jsRound ((((jsRound (b.width * scale) : ℤ) : ℚ) - b.width) / 2) : ℤ) : ℚ) := by
      have hlow : b.width * scale - 1/2 < ((jsRound (b.width * scale) : ℤ) : ℚ) :=
        lt_jsRound_cast _
      exact_mod_cast jsRound_nonneg_of_half (by linarith)
    have hjy0 : (0:ℚ) ≤
        ((jsRound ((((jsRound (b.height * scale) : ℤ) : ℚ) - b.height) / 2) : ℤ) : ℚ) := by
      have hlow : b.height * scale - 1/2 < ((jsRound (b.height * scale) : ℤ) : ℚ) :=
        lt_jsRound_cast _
      exact_mod_cast jsRound_nonneg_of_half (by linarith)
    refine ⟨?_, ?_, le_max_left _ _, ?_, le_max_left _ _, ?_, ?_, ?_,
      Or.inr ⟨⟨jsRound (b.width * scale), rfl⟩, ⟨jsRound (b.height * scale), rfl⟩⟩⟩
    · exact IsIntQ.max' ⟨0, by norm_num⟩ (IsIntQ.sub ⟨nx, hnx⟩ (isIntQ_intCast _))
    · exact IsIntQ.max' ⟨0, by norm_num⟩ (IsIntQ.sub ⟨ny, hny⟩ (isIntQ_intCast _))
    · calc max 0 (b.x - ((jsRound ((((jsRound (b.width * scale) : ℤ) : ℚ) - b.width) / 2) :
            ℤ) : ℚ)) ≤ max 0 b.x := max_le_max le_rfl (by linarith)
        _ = b.x := max_eq_right hx0
        _ < (W : ℚ) := hxW
    · calc max 0 (b.y - ((jsRound ((((jsRound (b.height * scale) : ℤ) : ℚ) - b.height) / 2) :
            ℤ) : ℚ)) ≤ max 0 b.y := max_le_max le_rfl (by linarith)
        _ = b.y := max_eq_right hy0
        _ < (H : ℚ) := hyH
    · show (4/5 : ℚ) ≤ ((jsRound (b.width * scale) : ℤ) : ℚ)
      linarith
    · show (4/5 : ℚ) ≤ ((jsRound (b.height * scale) : ℤ) : ℚ)
      linarith

lemma applyCropPadding_postPadGood {b : CropBounds} {W H : ℕ} {p : ℚ}
    (hb : PrePadGood b W H) (hp : 0 ≤ p) :
    PostPadGood (applyCropPadding b W H p) W H := by
  obtain ⟨⟨nx, hnx⟩, ⟨ny, hny⟩, hx0, hxW, hy0, hyH, hw, hh, hdims⟩ := hb
  unfold applyCropPadding
  dsimp only
  set padX : ℚ := ((jsRound (b.width * p) : ℤ) : ℚ) with hpadX
  set padY : ℚ := ((jsRound (b.height * p) : ℤ) : ℚ) with hpadY
  set px := max 0 (b.x - padX) with hpx
  set py := max 0 (b.y - padY) with hpy
  set pw := b.width + 2 * padX with hpw
  set ph := b.height + 2 * padY with hph
  have hpadX0 : 0 ≤ padX := by
    rw [hpadX]; exact jsRound_cast_nonneg (mul_nonneg (by linarith) hp)
  have hpadY0 : 0 ≤ padY := by
    rw [hpadY]; exact jsRound_cast_nonneg (mul_nonneg (by linarith) hp)
  have hpx0 : 0 ≤ px := le_max_left _ _
  have hpy0 : 0 ≤ py := le_max_left _ _
  have hpxb : px ≤ b.x := by rw [hpx]; exact max_le hx0 (by linarith)
  have hpyb : py ≤ b.y := by rw [hpy]; exact max_le hy0 (by linarith)
  have hpxW : px < (W : ℚ) := lt_of_le_of_lt hpxb hxW
  have hpyH : py < (H : ℚ) := lt_of_le_of_lt hpyb hyH
  have hpw0 : 0 < pw := by rw [hpw]; linarith
  have hph0 : 0 < ph := by rw [hph]; linarith
  have hintPadX : IsIntQ padX := ⟨jsRound (b.width * p), hpadX⟩
  have hintPadY : IsIntQ padY := ⟨jsRound (b.height * p), hpadY⟩
  have hintX : IsIntQ px := by
    rw [hpx]
    exact IsIntQ.max' ⟨0, by norm_num⟩ (IsIntQ.sub ⟨nx, hnx⟩ hintPadX)
  have hintY : IsIntQ py := by
    rw [hpy]
    exact IsIntQ.max' ⟨0, by norm_num⟩ (IsIntQ.sub ⟨ny, hny⟩ hintPadY)
  split_ifs with hcw hch hch
  · -- both width and height clamped
    refine ⟨⟨hpx0, hpy0, le_of_eq (by ring), le_of_eq (by ring)⟩,
      by show (0:ℚ) < (W : ℚ) - px; linarith,
      by show (0:ℚ) < (H : ℚ) - py; linarith, Or.inr ?_⟩
    exact IsIntQ.min' (IsIntQ.sub (isIntQ_natCast W) hintX)
      (IsIntQ.sub (isIntQ_natCast H) hintY)
  · -- width clamped, height kept
    push_neg at hch
    refine ⟨⟨hpx0, hpy0, le_of_eq (by ring), hch⟩,
      by show (0:ℚ) < (W : ℚ) - px; linarith, hph0, Or.inr ?_⟩
    rcases hdims with hweq | ⟨hiw, hih⟩
    · have hpXY : padX = padY := by rw [hpadX, hpadY, hweq]
      have hpwh : pw = ph := by rw [hpw, hph, hweq, hpXY]
      have : (W : ℚ) - px < ph := by rw [← hpwh]; linarith
      rw [min_eq_left (le_of_lt this)]
      exact IsIntQ.sub (isIntQ_natCast W) hintX
    · exact IsIntQ.min' (IsIntQ.sub (isIntQ_natCast W) hintX)
        (by rw [hph]; exact IsIntQ.add hih hintPadY.double)
  · -- width kept, height clamped
    push_neg at hcw
    refine ⟨⟨hpx0, hpy0, hcw, le_of_eq (by ring)⟩, hpw0,
      by show (0:ℚ) < (H : ℚ) - py; linarith, Or.inr ?_⟩
    rcases hdims with hweq | ⟨hiw, hih⟩
    · have hpXY : padX = padY := by rw [hpadX, hpadY, hweq]
      have hpwh : pw = ph := by rw [hpw, hph, hweq, hpXY]
      have : (H : ℚ) - py < pw := by rw [hpwh]; linarith
      rw [min_eq_right (le_of_lt this)]
      exact IsIntQ.sub (isIntQ_natCast H) hintY
    · exact IsIntQ.min' (by rw [hpw]; exact IsIntQ.add hiw hintPadX.double)
        (IsIntQ.sub (isIntQ_natCast H) hintY)
  · -- neither clamped
    push_neg at hcw hch
    refine ⟨⟨hpx0, hpy0, hcw, hch⟩, hpw0, hph0, ?_⟩
    rcases hdims with hweq | ⟨hiw, hih⟩
    · left
      have hpXY : padX = padY := by rw [hpadX, hpadY, hweq]
      rw [hpw, hph, hweq, hpXY]
    · right
      exact IsIntQ.min' (by rw [hpw]; exact IsIntQ.add hiw hintPadX.double)
        (by rw [hph]; exact IsIntQ.add hih hintPadY.double)

lemma int_add_le_of_lt_half {a n : ℤ} {W : ℕ} (h : ((a : ℚ)) + (n : ℚ) ≤ (W : ℚ) + 1/2) :
    ((a : ℚ)) + (n : ℚ) ≤ (W : ℚ) := by
  have h1 : ((a + n : ℤ) : ℚ) < ((W : ℤ) : ℚ) + 1 := by push_cast; linarith
  have h2 : a + n < (W : ℤ) + 1 := by exact_mod_cast h1
  have h3 : a + n ≤ (W : ℤ) := by omega
  have h4 : ((a + n : ℤ) : ℚ) ≤ ((W : ℤ) : ℚ) := by exact_mod_cast h3
  push_cast at h4
  linarith

lemma normalizeAspect_inBounds {b : CropBounds} {W H : ℕ}
    (hb : PostPadGood b W H) : InBoundsRect (normalizeAspect b) W H := by
  obtain ⟨⟨hx0, hy0, hxW, hyH⟩, hwpos, hhpos, hdims⟩ := hb
  unfold normalizeAspect
  dsimp only
  split_ifs with hcond
  case neg => exact ⟨hx0, hy0, hxW, hyH⟩
  case pos =>
    have hne : b.width ≠ b.height := by
      intro he
      rw [he, div_self (ne_of_gt hhpos)] at hcond
      rcases hcond with hc | hc <;> norm_num at hc
    obtain ⟨n, hn⟩ := hdims.resolve_left hne
    set t := min b.width b.height with ht
    have htw : t ≤ b.width := min_le_left _ _
    have hth : t ≤ b.height := min_le_right _ _
    have ht0 : 0 < t := lt_min hwpos hhpos
    have htW : t ≤ (W : ℚ) := by linarith
    have htH : t ≤ (H : ℚ) := by linarith
    have hxkey : ((jsRound (b.x + b.width / 2 - t / 2) : ℤ) : ℚ) + t ≤ (W : ℚ) := by
      have h1 := jsRound_cast_le (b.x + b.width / 2 - t / 2)
      have h2 : ((jsRound (b.x + b.width / 2 - t / 2) : ℤ) : ℚ) + t ≤ (W : ℚ) + 1/2 := by
        linarith
      rw [hn]
      rw [hn] at h2
      exact int_add_le_of_lt_half h2
    have hykey : ((jsRound (b.y + b.height / 2 - t / 2) : ℤ) : ℚ) + t ≤ (H : ℚ) := by
      have h1 := jsRound_cast_le (b.y + b.height / 2 - t / 2)
      have h2 : ((jsRound (b.y + b.height / 2 - t / 2) : ℤ) : ℚ) + t ≤ (H : ℚ) + 1/2 := by
        linarith
      rw [hn]
      rw [hn] at h2
      exact int_add_le_of_lt_half h2
    refine ⟨le_max_left _ _, le_max_left _ _, ?_, ?_⟩
    · show max 0 ((jsRound (b.x + b.width / 2 - t / 2) : ℤ) : ℚ) + t ≤ (W : ℚ)
      rcases le_or_lt ((jsRound (b.x + b.width / 2 - t / 2) : ℤ) : ℚ) 0 with hj | hj
      · rw [max_eq_left hj]; linarith
      · rw [max_eq_right (le_of_lt hj)]; exact hxkey
    · show max 0 ((jsRound (b.y + b.height / 2 - t / 2) : ℤ) : ℚ) + t ≤ (H : ℚ)
      rcases le_or_lt ((jsRound (b.y + b.height / 2 - t / 2) : ℤ) : ℚ) 0 with hj | hj
      · rw [max_eq_left hj]; linarith
      · rw [max_eq_right (le_of_lt hj)]; exact hykey

/-- **C6** (amended). For every mask and every option combination with
`paddingPercentage ≥ 0`, the rectangle returned by the crop computation
satisfies the four clamping inequalities of the `Rectangle` invariant:
`x ≥ 0, y ≥ 0, x + width ≤ imageWidth, y + height ≤ imageHeight`.  The
"all four fields integers" part of the claim is false: the fallback path
stores the unrounded `0.8 * min(width, height)`, which can be fractional
(see the counterexample). -/
theorem findOptimalCropBounds_rectangle_invariant (mask : List ℕ) (W H : ℕ) (p m : ℚ)
    (hW : 1 ≤ W) (hH : 1 ≤ H) (hp : 0 ≤ p) :
    InBoundsRect (findOptimalCropBounds mask W H p m) W H := by
  rcases hsub : findSubjectBounds mask W H with _ | b
  · rw [findOptimalCropBounds_of_none hsub]
    exact normalizeAspect_inBounds (applyCropPadding_postPadGood
      (ensureMinSize_prePadGood (fallbackBounds_prePadGood W H hW hH)) hp)
  · rw [findOptimalCropBounds_of_some hsub]
    exact normalizeAspect_inBounds (applyCropPadding_postPadGood
      (ensureMinSize_prePadGood (findSubjectBounds_prePadGood hW hH hsub)) hp)

/-- Witness for `findOptimalCropBounds_rectangle_invariant` on a 2×2 image
whose mask marks the single pixel (0,0), with the default options. -/
theorem findOptimalCropBounds_rectangle_invariant_witness :
    ((1 : ℕ) ≤ 2 ∧ (0 : ℚ) ≤ 0.15) ∧
    InBoundsRect (findOptimalCropBounds [1, 0, 0, 0] 2 2 0.15 100) 2 2 :=
  ⟨⟨by norm_num, by norm_num⟩,
   findOptimalCropBounds_rectangle_invariant [1, 0, 0, 0] 2 2 0.15 100
     (by norm_num) (by norm_num) (by norm_num)⟩

/-- **C6** (counterexample). On a 7×7 image with an all-zero mask,
`paddingPercentage = 0` and `minCropSize = 1`, the returned rectangle has
`width = 5.6` (the unrounded fallback side `0.8 * 7`), which is not an
integer — the integrality part of the Rectangle invariant fails. -/
theorem findOptimalCropBounds_width_not_integral :
    (findOptimalCropBounds (List.replicate 49 0) 7 7 0 1).width = 28/5 ∧
    ¬ IsIntQ (findOptimalCropBounds (List.replicate 49 0) 7 7 0 1).width := by
  have hval : (findOptimalCropBounds (List.replicate 49 0) 7 7 0 1).width = 28/5 := by
    rw [findOptimalCropBounds_of_none
      (findSubjectBounds_of_empty (by decide : ∀ v ∈ List.replicate 49 (0:ℕ), v ≠ 1))]
    norm_num [fallbackBounds, ensureMinSize, applyCropPadding, normalizeAspect, jsRound]
  refine ⟨hval, ?_⟩
  rintro ⟨n, hn⟩
  rw [hval] at hn
  have h28 : (28 : ℚ) = 5 * (n : ℚ) := by field_simp at hn; linarith
  have : (28 : ℤ) = 5 * n := by exact_mod_cast h28
  omega

/-! ## Exact bounding box of a rectangular mask (C7) -/

lemma subjFold_mono (mask : List ℕ) (W : ℕ) :
    ∀ (l : List (ℕ × ℕ)) (st : SubjState),
      (l.foldl (subjStep mask W) st).minX ≤ st.minX ∧
      st.maxX ≤ (l.foldl (subjStep mask W) st).maxX ∧
      (l.foldl (subjStep mask W) st).minY ≤ st.minY ∧
      st.maxY ≤ (l.foldl (subjStep mask W) st).maxY ∧
      st.count ≤ (l.foldl (subjStep mask W) st).count := by
  intro l
  induction l with
  | nil => exact fun st => ⟨le_rfl, le_rfl, le_rfl, le_rfl, le_rfl⟩
  | cons p rest ih =>
    intro st
    rw [List.foldl_cons]
    have hstep := ih (subjStep mask W st p)
    unfold subjStep at hstep ⊢
    split_ifs at hstep ⊢ with hhit
    · refine ⟨le_trans hstep.1 ?_, le_trans ?_ hstep.2.1,
        le_trans hstep.2.2.1 ?_, le_trans ?_ hstep.2.2.2.1,
        le_trans ?_ hstep.2.2.2.2⟩ <;> simp only <;> omega
    · exact hstep

lemma subjFold_hit (mask : List ℕ) (W : ℕ) {l : List (ℕ × ℕ)} {p : ℕ × ℕ}
    (hp : p ∈ l) (hhit : mask.getD (p.1 * W + p.2) 0 = 1) (st : SubjState) :
    (l.foldl (subjStep mask W) st).minX ≤ p.2 ∧
    p.2 ≤ (l.foldl (subjStep mask W) st).maxX ∧
    (l.foldl (subjStep mask W) st).minY ≤ p.1 ∧
    p.1 ≤ (l.foldl (subjStep mask W) st).maxY ∧
    1 ≤ (l.foldl (subjStep mask W) st).count := by
  obtain ⟨s, t2, rfl⟩ := List.append_of_mem hp
  rw [List.foldl_append, List.foldl_cons]
  set st1 := s.foldl (subjStep mask W) st with hst1
  have hstep : (subjStep mask W st1 p).minX ≤ p.2 ∧ p.2 ≤ (subjStep mask W st1 p).maxX ∧
      (subjStep mask W st1 p).minY ≤ p.1 ∧ p.1 ≤ (subjStep mask W st1 p).maxY ∧
      1 ≤ (subjStep mask W st1 p).count := by
    unfold subjStep
    rw [if_pos hhit]
    exact ⟨min_le_right _ _, le_max_right _ _, min_le_right _ _, le_max_right _ _,
      by simp only; omega⟩
  have hmono := subjFold_mono mask W t2 (subjStep mask W st1 p)
  exact ⟨le_trans hmono.1 hstep.1, le_trans hstep.2.1 hmono.2.1,
    le_trans hmono.2.2.1 hstep.2.2.1, le_trans hstep.2.2.2.1 hmono.2.2.2.1,
    le_trans hstep.2.2.2.2 hmono.2.2.2.2⟩

lemma subjFold_bounded (mask : List ℕ) (W : ℕ) (x0 xm y0 ym : ℕ) :
    ∀ (l : List (ℕ × ℕ)),
      (∀ p ∈ l, mask.getD (p.1 * W + p.2) 0 = 1 →
        x0 ≤ p.2 ∧ p.2 ≤ xm ∧ y0 ≤ p.1 ∧ p.1 ≤ ym) →
      ∀ st : SubjState, x0 ≤ st.minX → st.maxX ≤ xm → y0 ≤ st.minY → st.maxY ≤ ym →
      (x0 ≤ (l.foldl (subjStep mask W) st).minX ∧
       (l.foldl (subjStep mask W) st).maxX ≤ xm ∧
       y0 ≤ (l.foldl (subjStep mask W) st).minY ∧
       (l.foldl (subjStep mask W) st).maxY ≤ ym) := by
  intro l
  induction l with
  | nil => exact fun _ st h1 h2 h3 h4 => ⟨h1, h2, h3, h4⟩
  | cons p rest ih =>
    intro hmem st h1 h2 h3 h4
    rw [List.foldl_cons]
    have hrest := fun q hq => hmem q (List.mem_cons_of_mem _ hq)
    unfold subjStep
    split_ifs with hhit
    · have hp := hmem p (List.mem_cons_self _ _) hhit
      exact ih hrest _ (by simp only; omega) (by simp only; omega)
        (by simp only; omega) (by simp only; omega)
    · exact ih hrest st h1 h2 h3 h4

lemma findSubjectBounds_rect {mask : List ℕ} {W H x0 y0 w0 h0 : ℕ}
    (hw0 : 1 ≤ w0) (hh0 : 1 ≤ h0) (hxW : x0 + w0 ≤ W) (hyH : y0 + h0 ≤ H)
    (hmask : ∀ y, y < H → ∀ x, x < W →
      (mask.getD (y * W + x) 0 = 1 ↔ (x0 ≤ x ∧ x < x0 + w0 ∧ y0 ≤ y ∧ y < y0 + h0))) :
    findSubjectBounds mask W H = some ⟨(x0 : ℚ), (y0 : ℚ), (w0 : ℚ), (h0 : ℚ)⟩ := by
  unfold findSubjectBounds
  dsimp only
  set st := (rowMajor H W).foldl (subjStep mask W) ⟨W, 0, H, 0, 0⟩ with hst
  have hmem1 : ((y0 : ℕ), (x0 : ℕ)) ∈ rowMajor H W := mem_rowMajor.2 ⟨by omega, by omega⟩
  have hhit1 : mask.getD (y0 * W + x0) 0 = 1 :=
    (hmask y0 (by omega) x0 (by omega)).2 ⟨le_rfl, by omega, le_rfl, by omega⟩
  have h1 := subjFold_hit mask W hmem1 hhit1 ⟨W, 0, H, 0, 0⟩
  have hmem2 : ((y0 : ℕ), x0 + w0 - 1) ∈ rowMajor H W := mem_rowMajor.2 ⟨by omega, by omega⟩
  have hhit2 : mask.getD (y0 * W + (x0 + w0 - 1)) 0 = 1 :=
    (hmask y0 (by omega) (x0 + w0 - 1) (by omega)).2 ⟨by omega, by omega, le_rfl, by omega⟩
  have h2 := subjFold_hit mask W hmem2 hhit2 ⟨W, 0, H, 0, 0⟩
  have hmem3 : (y0 + h0 - 1, (x0 : ℕ)) ∈ rowMajor H W := mem_rowMajor.2 ⟨by omega, by omega⟩
  have hhit3 : mask.getD ((y0 + h0 - 1) * W + x0) 0 = 1 :=
    (hmask (y0 + h0 - 1) (by omega) x0 (by omega)).2 ⟨le_rfl, by omega, by omega, by omega⟩
  have h3 := subjFold_hit mask W hmem3 hhit3 ⟨W, 0, H, 0, 0⟩
  have hbnd := subjFold_bounded mask W x0 (x0 + w0 - 1) y0 (y0 + h0 - 1) (rowMajor H W)
    (fun p hp hhit => by
      have hm := mem_rowMajor.1 hp
      have := (hmask p.1 hm.1 p.2 hm.2).1 hhit
      omega)
    ⟨W, 0, H, 0, 0⟩ (by simp only; omega) (by simp only; omega)
    (by simp only; omega) (by simp only; omega)
  rw [← hst] at h1 h2 h3 hbnd
  have hminX : st.minX = x0 := le_antisymm (by omega) hbnd.1
  have hmaxX : st.maxX = x0 + w0 - 1 := le_antisymm hbnd.2.1 (by omega)
  have hminY : st.minY = y0 := le_antisymm (by omega) hbnd.2.2.1
  have hmaxY : st.maxY = y0 + h0 - 1 := le_antisymm hbnd.2.2.2 (by omega)
  have hcount : ¬ st.count = 0 := by omega
  rw [if_neg hcount]
  rw [hminX, hminY, show st.maxX - x0 + 1 = w0 by omega, show st.maxY - y0 + 1 = h0 by omega]

/-- **C7** (confirmed). For a mask whose foreground is exactly one
rectangular region `(x0, y0, w0, h0)` inside the image, the crop
computation with `paddingPercentage = 0` and `minCropSize = 1` returns
exactly that rectangle, provided its aspect ratio is within `[0.33, 3]`
(so aspect-ratio normalization does not trigger). -/
theorem findOptimalCropBounds_single_rect (mask : List ℕ) (W H x0 y0 w0 h0 : ℕ)
    (hw0 : 1 ≤ w0) (hh0 : 1 ≤ h0) (hxW : x0 + w0 ≤ W) (hyH : y0 + h0 ≤ H)
    (hmask : ∀ y, y < H → ∀ x, x < W →
      (mask.getD (y * W + x) 0 = 1 ↔ (x0 ≤ x ∧ x < x0 + w0 ∧ y0 ≤ y ∧ y < y0 + h0)))
    (hr1 : ((w0 : ℚ)) / (h0 : ℚ) ≤ 3) (hr2 : (0.33 : ℚ) ≤ (w0 : ℚ) / (h0 : ℚ)) :
    findOptimalCropBounds mask W H 0 1 = ⟨(x0 : ℚ), (y0 : ℚ), (w0 : ℚ), (h0 : ℚ)⟩ := by
  have hw1 : (1 : ℚ) ≤ (w0 : ℚ) := by exact_mod_cast hw0
  have hh1 : (1 : ℚ) ≤ (h0 : ℚ) := by exact_mod_cast hh0
  rw [findOptimalCropBounds_of_some (findSubjectBounds_rect hw0 hh0 hxW hyH hmask)]
  rw [ensureMinSize_of_large (by
    push_neg
    exact ⟨by show (1:ℚ) ≤ (w0 : ℚ); exact hw1, by show (1:ℚ) ≤ (h0 : ℚ); exact hh1⟩)]
  rw [applyCropPadding_zero (show (0:ℚ) ≤ ((x0 : ℕ) : ℚ) from Nat.cast_nonneg _)
    (show (0:ℚ) ≤ ((y0 : ℕ) : ℚ) from Nat.cast_nonneg _)
    (by push_neg; show (x0 : ℚ) + (w0 : ℚ) ≤ (W : ℚ); exact_mod_cast hxW)
    (by push_neg; show (y0 : ℚ) + (h0 : ℚ) ≤ (H : ℚ); exact_mod_cast hyH)]
  exact normalizeAspect_of_moderate
    (by show ¬(3 < (w0 : ℚ) / (h0 : ℚ)); push_neg; exact hr1)
    (by show ¬((w0 : ℚ) / (h0 : ℚ) < 0.33); push_neg; exact hr2)

/-- Witness for `findOptimalCropBounds_single_rect`: a 4×4 mask whose
foreground is the 2×2 square at (1,1). -/
theorem findOptimalCropBounds_single_rect_witness :
    ((1 : ℕ) ≤ 2 ∧ 1 + 2 ≤ 4 ∧
      (∀ y, y < 4 → ∀ x, x < 4 →
        (List.getD [0, 0, 0, 0, 0, 1, 1, 0, 0, 1, 1, 0, 0, 0, 0, 0] (y * 4 + x) 0 = 1 ↔
          (1 ≤ x ∧ x < 1 + 2 ∧ 1 ≤ y ∧ y < 1 + 2))) ∧
      ((2 : ℚ)) / (2 : ℚ) ≤ 3 ∧ (0.33 : ℚ) ≤ (2 : ℚ) / (2 : ℚ)) ∧
    findOptimalCropBounds [0, 0, 0, 0, 0, 1, 1, 0, 0, 1, 1, 0, 0, 0, 0, 0] 4 4 0 1 =
      ⟨((1 : ℕ) : ℚ), ((1 : ℕ) : ℚ), ((2 : ℕ) : ℚ), ((2 : ℕ) : ℚ)⟩ :=
  ⟨⟨by norm_num, by norm_num, by decide, by norm_num, by norm_num⟩,
   findOptimalCropBounds_single_rect _ 4 4 1 1 2 2 (by norm_num) (by norm_num)
     (by norm_num) (by norm_num) (by decide) (by norm_num) (by norm_num)⟩

/-! ## Sharpening: border preservation and alpha preservation (C5, C9) -/

lemma applyWrites_enumFrom_congr :
    ∀ (src : List ℕ) (k : ℕ) (pre dst : List ℕ), pre.length = k → dst.length = src.length →
      applyWrites (src.enumFrom k) (pre ++ dst) = pre ++ src := by
  intro src
  induction src with
  | nil =>
    intro k pre dst _ hdst
    rw [List.length_eq_zero.1 hdst]
    rfl
  | cons a tl ih =>
    intro k pre dst hpre hdst
    rcases dst with _ | ⟨b, dst'⟩
    · simp at hdst
    · have hset : (pre ++ b :: dst').set k a = pre ++ a :: dst' := by
        rw [List.set_append_right _ _ (le_of_eq hpre)]
        rw [show k - pre.length = 0 by omega]
        rfl
      show applyWrites ((k, a) :: tl.enumFrom (k + 1)) (pre ++ b :: dst') = pre ++ a :: tl
      rw [applyWrites_cons]
      show applyWrites (tl.enumFrom (k + 1)) ((pre ++ b :: dst').set k a) = pre ++ a :: tl
      rw [hset, show pre ++ a :: dst' = (pre ++ [a]) ++ dst' by simp,
        show pre ++ a :: tl = (pre ++ [a]) ++ tl by simp]
      exact ih (k + 1) (pre ++ [a]) dst' (by simp [hpre]) (by simpa using hdst)

lemma copyInto_eq_self {src dst : List ℕ} (h : dst.length = src.length) :
    copyInto src dst = src := by
  unfold copyInto
  have := applyWrites_enumFrom_congr src 0 [] dst rfl h
  simpa [List.enum] using this

lemma interiorPixels_eq_nil {w h : ℕ} (hd : w < 3 ∨ h < 3) : interiorPixels w h = [] := by
  unfold interiorPixels
  rcases hd with hw | hh
  · have : w - 2 = 0 := by omega
    rw [this]
    induction List.range' 1 (h - 2) with
    | nil => rfl
    | cons y rest ih => simp only [List.flatMap_cons, List.map_nil, List.flatMap_nil,
        List.nil_append] at ih ⊢; exact ih
  · have : h - 2 = 0 := by omega
    rw [this]
    rfl

lemma sharpenPixelWrites_avoid_border {orig : List ℕ} {w h : ℕ} {f : ℕ → ℕ → ℕ → ℕ}
    {q : ℕ × ℕ} (hq : q ∈ interiorPixels w h) {x y c : ℕ}
    (hx : x < w) (hc : c < 4)
    (hborder : x = 0 ∨ y = 0 ∨ x = w - 1 ∨ y = h - 1) :
    ∀ iv ∈ sharpenPixelWrites orig w f q, iv.1 ≠ (y * w + x) * 4 + c := by
  obtain ⟨hq1, hq2, hq3, hq4⟩ := mem_interiorPixels.1 hq
  intro iv hiv heq
  have hfst : iv.1 = (q.1 * w + q.2) * 4 ∨ iv.1 = (q.1 * w + q.2) * 4 + 1 ∨
      iv.1 = (q.1 * w + q.2) * 4 + 2 ∨ iv.1 = (q.1 * w + q.2) * 4 + 3 := by
    simp only [sharpenPixelWrites, List.mem_cons, List.not_mem_nil, or_false] at hiv
    rcases hiv with rfl | rfl | rfl | rfl
    · exact Or.inl rfl
    · exact Or.inr (Or.inl rfl)
    · exact Or.inr (Or.inr (Or.inl rfl))
    · exact Or.inr (Or.inr (Or.inr rfl))
  have hbase : q.1 * w + q.2 = y * w + x := by
    rcases hfst with h' | h' | h' | h' <;> rw [h'] at heq <;> omega
  have hxy := pix_index_inj (by omega) hx hbase
  omega

/-- The destination buffer of `sharpenImage` before the method runs: the
copy loop reproduces `data` exactly when the buffer is well-formed. -/
lemma sharpenImage_newData {data : List ℕ} {w h : ℕ}
    (hlen : data.length = 4 * w * h) :
    copyInto data (List.replicate (4 * w * h) 0) = data :=
  copyInto_eq_self (by rw [List.length_replicate, hlen])

/-- **C5** (confirmed). For every input buffer, every intensity, and each
of the three sharpening methods, every border pixel of the output equals
the corresponding input pixel exactly; and an image with `width < 3` or
`height < 3` is returned as an unmodified copy of the input. -/
theorem sharpenImage_preserves_border (data : List ℕ) (w h : ℕ) (intensity : ℚ)
    (method : SharpMethod) (x y c : ℕ)
    (hlen : data.length = 4 * w * h) (hx : x < w) (hc : c < 4)
    (hborder : x = 0 ∨ y = 0 ∨ x = w - 1 ∨ y = h - 1) :
    (sharpenImage data w h intensity method).getD ((y * w + x) * 4 + c) 0 =
      data.getD ((y * w + x) * 4 + c) 0 ∧
    (w < 3 ∨ h < 3 → sharpenImage data w h intensity method = data) := by
  have hcopy := sharpenImage_newData hlen
  have hmain : ∀ (f : ℕ → ℕ → ℕ → ℕ),
      (applyWrites ((interiorPixels w h).flatMap (sharpenPixelWrites data w f))
        (copyInto data (List.replicate (4 * w * h) 0))).getD ((y * w + x) * 4 + c) 0 =
        data.getD ((y * w + x) * 4 + c) 0 := by
    intro f
    rw [applyWrites_getD_of_notMem, hcopy]
    intro iv hiv
    rcases List.mem_flatMap.1 hiv with ⟨q, hq, hiv'⟩
    exact sharpenPixelWrites_avoid_border hq hx hc hborder iv hiv'
  have hnil : ∀ (f : ℕ → ℕ → ℕ → ℕ), w < 3 ∨ h < 3 →
      applyWrites ((interiorPixels w h).flatMap (sharpenPixelWrites data w f))
        (copyInto data (List.replicate (4 * w * h) 0)) = data := by
    intro f hd
    rw [interiorPixels_eq_nil hd]
    rw [List.flatMap_nil, applyWrites_nil, hcopy]
  cases method
  · exact ⟨hmain _, fun hd => hnil _ hd⟩
  · exact ⟨hmain _, fun hd => hnil _ hd⟩
  · exact ⟨hmain _, fun hd => hnil _ hd⟩

/-- Witness for `sharpenImage_preserves_border`: the top-left pixel of a
3×3 buffer under the unsharp method. -/
theorem sharpenImage_preserves_border_witness :
    ((List.replicate 36 (7 : ℕ)).length = 4 * 3 * 3 ∧ 0 < 3 ∧ 0 < 4 ∧
      ((0 : ℕ) = 0 ∨ (0 : ℕ) = 0 ∨ (0 : ℕ) = 3 - 1 ∨ (0 : ℕ) = 3 - 1)) ∧
    ((sharpenImage (List.replicate 36 7) 3 3 1.5 SharpMethod.unsharp).getD
        ((0 * 3 + 0) * 4 + 0) 0 =
      (List.replicate 36 (7 : ℕ)).getD ((0 * 3 + 0) * 4 + 0) 0 ∧
      (3 < 3 ∨ 3 < 3 → sharpenImage (List.replicate 36 7) 3 3 1.5 SharpMethod.unsharp =
        List.replicate 36 7)) :=
  ⟨⟨by decide, by decide, by decide, Or.inl rfl⟩,
   sharpenImage_preserves_border (List.replicate 36 7) 3 3 1.5 SharpMethod.unsharp 0 0 0
     (by decide) (by decide) (by decide) (Or.inl rfl)⟩

lemma getD_set_getD (buf : List ℕ) (i v : ℕ) :
    (buf.set i v).getD i 0 = if i < buf.length then v else buf.getD i 0 := by
  split_ifs with h'
  · exact getD_set_self buf h' v
  · rw [List.set_eq_of_length_le (by omega)]

lemma sharpen_alpha_invariant (orig : List ℕ) (w : ℕ) (f : ℕ → ℕ → ℕ → ℕ) :
    ∀ (L : List (ℕ × ℕ)) (buf : List ℕ),
      (∀ m : ℕ, buf.getD (4 * m + 3) 0 = orig.getD (4 * m + 3) 0) →
      ∀ m : ℕ,
        (applyWrites (L.flatMap (sharpenPixelWrites orig w f)) buf).getD (4 * m + 3) 0 =
          orig.getD (4 * m + 3) 0 := by
  intro L
  induction L with
  | nil => exact fun buf hinv m => hinv m
  | cons q rest ih =>
    intro buf hinv m
    rw [List.flatMap_cons, applyWrites_append]
    apply ih
    intro n
    show ((((buf.set ((q.1 * w + q.2) * 4) (f q.1 q.2 0)).set
        ((q.1 * w + q.2) * 4 + 1) (f q.1 q.2 1)).set
        ((q.1 * w + q.2) * 4 + 2) (f q.1 q.2 2)).set
        ((q.1 * w + q.2) * 4 + 3) (orig.getD ((q.1 * w + q.2) * 4 + 3) 0)).getD
        (4 * n + 3) 0 = orig.getD (4 * n + 3) 0
    by_cases hm : q.1 * w + q.2 = n
    · rw [show (q.1 * w + q.2) * 4 + 3 = 4 * n + 3 by omega]
      rw [getD_set_getD]
      split_ifs with hlt
      · rfl
      · rw [getD_set_ne _ (by omega), getD_set_ne _ (by omega), getD_set_ne _ (by omega)]
        exact hinv n
    · rw [getD_set_ne _ (by omega), getD_set_ne _ (by omega), getD_set_ne _ (by omega),
        getD_set_ne _ (by omega)]
      exact hinv n

/-- **C9** (confirmed). For every input buffer, intensity, and sharpening
method, the alpha channel of every pixel of the output equals the alpha of
the corresponding input pixel: border alphas survive via the initial copy,
and each interior write sequence explicitly copies the original alpha. -/
theorem sharpenImage_preserves_alpha (data : List ℕ) (w h : ℕ) (intensity : ℚ)
    (method : SharpMethod) (x y : ℕ)
    (hlen : data.length = 4 * w * h) (hx : x < w) (hy : y < h) :
    (sharpenImage data w h intensity method).getD ((y * w + x) * 4 + 3) 0 =
      data.getD ((y * w + x) * 4 + 3) 0 := by
  have hcopy := sharpenImage_newData hlen
  have hbase : ∀ m : ℕ, (copyInto data (List.replicate (4 * w * h) 0)).getD (4 * m + 3) 0 =
      data.getD (4 * m + 3) 0 := by
    rw [hcopy]
    exact fun m => rfl
  rw [show (y * w + x) * 4 + 3 = 4 * (y * w + x) + 3 by ring]
  cases method
  · exact sharpen_alpha_invariant data w _ (interiorPixels w h) _ hbase (y * w + x)
  · exact sharpen_alpha_invariant data w _ (interiorPixels w h) _ hbase (y * w + x)
  · exact sharpen_alpha_invariant data w _ (interiorPixels w h) _ hbase (y * w + x)

/-- Witness for `sharpenImage_preserves_alpha`: the interior pixel (1,1)
of a 3×3 buffer under the Laplacian method. -/
theorem sharpenImage_preserves_alpha_witness :
    ((List.replicate 36 (9 : ℕ)).length = 4 * 3 * 3 ∧ 1 < 3 ∧ 1 < 3) ∧
    (sharpenImage (List.replicate 36 9) 3 3 1.5 SharpMethod.laplacian).getD
        ((1 * 3 + 1) * 4 + 3) 0 =
      (List.replicate 36 (9 : ℕ)).getD ((1 * 3 + 1) * 4 + 3) 0 :=
  ⟨⟨by decide, by decide, by decide⟩,
   sharpenImage_preserves_alpha (List.replicate 36 9) 3 3 1.5 SharpMethod.laplacian 1 1
     (by decide) (by decide) (by decide)⟩

/-! ## The sharpness scorer reads the red channel, not grayscale (C2) -/

/-- **C2** (code bug). On `greenEdgeImage` — a 3×3 opaque image whose only
edge is in the green channel — the sharpness scorer returns `0`, because
its Sobel taps read the red channel (`data[idx * 4]`): the `gray`
grayscale value computed in the loop is never used.  The grayscale Sobel
the claim (and the spec) describes yields `100` on the same image, as
`analyzeImageSharpnessGray` shows.  The result is only accidentally inside
`[0, 100]`; the "grayscale-converted" part of the claim is contradicted by
the code's own dead `gray` variable. -/
theorem analyzeImageSharpness_reads_red_channel :
    analyzeImageSharpness greenEdgeImage 3 3 = 0 ∧
    analyzeImageSharpnessGray greenEdgeImage 3 3 = 100 := by
  have hint : interiorPixels 3 3 = [(1, 1)] := by decide
  constructor
  · unfold analyzeImageSharpness
    rw [hint]
    dsimp only
    rw [List.foldl_cons, List.foldl_nil]
    rw [if_neg (by decide)]
    norm_num [tap,
      show greenEdgeImage[0]?.getD 0 = 0 from rfl,
      show greenEdgeImage[4]?.getD 0 = 0 from rfl,
      show greenEdgeImage[8]?.getD 0 = 0 from rfl,
      show greenEdgeImage[12]?.getD 0 = 0 from rfl,
      show greenEdgeImage[16]?.getD 0 = 0 from rfl,
      show greenEdgeImage[20]?.getD 0 = 0 from rfl,
      show greenEdgeImage[24]?.getD 0 = 0 from rfl,
      show greenEdgeImage[28]?.getD 0 = 0 from rfl,
      show greenEdgeImage[32]?.getD 0 = 0 from rfl,
      Real.sqrt_zero]
  · unfold analyzeImageSharpnessGray
    rw [hint]
    dsimp only
    rw [List.foldl_cons, List.foldl_nil]
    rw [if_neg (by decide)]
    norm_num [tap,
      show greenEdgeImage[0]?.getD 0 = 0 from rfl,
      show greenEdgeImage[1]?.getD 0 = 0 from rfl,
      show greenEdgeImage[2]?.getD 0 = 0 from rfl,
      show greenEdgeImage[4]?.getD 0 = 0 from rfl,
      show greenEdgeImage[5]?.getD 0 = 0 from rfl,
      show greenEdgeImage[6]?.getD 0 = 0 from rfl,
      show greenEdgeImage[8]?.getD 0 = 0 from rfl,
      show greenEdgeImage[9]?.getD 0 = 255 from rfl,
      show greenEdgeImage[10]?.getD 0 = 0 from rfl,
      show greenEdgeImage[12]?.getD 0 = 0 from rfl,
      show greenEdgeImage[13]?.getD 0 = 0 from rfl,
      show greenEdgeImage[14]?.getD 0 = 0 from rfl,
      show greenEdgeImage[20]?.getD 0 = 0 from rfl,
      show greenEdgeImage[21]?.getD 0 = 255 from rfl,
      show greenEdgeImage[22]?.getD 0 = 0 from rfl,
      show greenEdgeImage[24]?.getD 0 = 0 from rfl,
      show greenEdgeImage[25]?.getD 0 = 0 from rfl,
      show greenEdgeImage[26]?.getD 0 = 0 from rfl,
      show greenEdgeImage[28]?.getD 0 = 0 from rfl,
      show greenEdgeImage[29]?.getD 0 = 0 from rfl,
      show greenEdgeImage[30]?.getD 0 = 0 from rfl,
      show greenEdgeImage[32]?.getD 0 = 0 from rfl,
      show greenEdgeImage[33]?.getD 0 = 255 from rfl,
      show greenEdgeImage[34]?.getD 0 = 0 from rfl]
    rw [show (896223969 : ℝ) = 29937 ^ 2 by norm_num, Real.sqrt_sq (by norm_num),
      show (2500 : ℝ) = 50 ^ 2 by norm_num, Real.sqrt_sq (by norm_num)]
    norm_num

/-! ## Palette extraction fails exactly on insufficient samples (C8) -/

/-- **C8** (confirmed). For every buffer, random stream, and parameters,
the palette extraction fails — with the insufficient-samples error carrying
the sample count and `k` — if and only if the sampled working set (stride
`max(1, floor(totalPixels / maxSamples))`, pixels with `alpha < 128` or
HSL lightness outside `[5, 95]` excluded) has fewer than `k` members; when
it fails it fails hard, returning no palette. -/
theorem extractColorPalette_insufficient_samples (rand : ℕ → ℚ) (data : List ℕ)
    (width height k maxIterations maxSamples : ℕ) :
    extractColorPalette rand data width height k maxIterations maxSamples =
        Except.error ((samplePixels data width height maxSamples).length, k) ↔
      (samplePixels data width height maxSamples).length < k := by
  unfold extractColorPalette
  dsimp only
  split_ifs with hk
  · exact iff_of_true rfl hk
  · exact iff_of_false (by simp) hk
